import Mathlib

/-!
Verification of the webserv HTTP/1.1 server (ipersids/webserv).

Shallow embedding of the HTTP request parser (`HttpRequestParser.cpp`,
`HttpRequest.cpp`), the response object (`HttpResponse.cpp`), the router
(`HttpMethodHandler.cpp`, `HttpUtils.cpp`) and the CGI output parser
(`CgiHandler.cpp`).

Conventions:
- C++ `std::string` is modelled as `List Char` where each `Char` stands for
  one byte (values < 256).  String search (`find`), `substr`, and erasure are
  modelled by `findSub`, `take`/`drop`.
- `std::map<std::string, std::string>` is modelled as an association list
  kept sorted by key in byte-lexicographic order (the iteration order of a
  `std::map`).
- Mutating member functions become functions `State -> State`; functions
  returning a status while mutating return a pair.
- Filesystem, process and clock effects are passed in as oracle parameters.
-/

set_option maxHeartbeats 1000000

namespace Webserv

abbrev Bytes := List Char

/-- Bytes of a Lean string literal. -/
def strB (s : String) : Bytes := s.data

/-- Decimal representation, as `std::to_string` on an unsigned value. -/
def toBytes (n : Nat) : Bytes := (Nat.repr n).data

/-- `std::tolower` in the default C locale: only ASCII A-Z are mapped. -/
def asciiToLower (c : Char) : Char :=
  if 65 ≤ c.toNat ∧ c.toNat ≤ 90 then Char.ofNat (c.toNat + 32) else c

/-- `std::toupper` in the default C locale: only ASCII a-z are mapped. -/
def asciiToUpper (c : Char) : Char :=
  if 97 ≤ c.toNat ∧ c.toNat ≤ 122 then Char.ofNat (c.toNat - 32) else c

/-- `std::isalpha` in the default C locale. -/
def asciiIsAlpha (c : Char) : Bool :=
  (65 ≤ c.toNat ∧ c.toNat ≤ 90) ∨ (97 ≤ c.toNat ∧ c.toNat ≤ 122)

def asciiIsDigit (c : Char) : Bool := 48 ≤ c.toNat ∧ c.toNat ≤ 57

/-- `HttpUtils::toLowerCase`. -/
def lowerBytes (s : Bytes) : Bytes := s.map asciiToLower

/-- `std::string::find(pat)`: index of the first occurrence of `pat` in
`hay`, `none` standing for `npos`. -/
def findSub (hay pat : Bytes) : Option Nat :=
  if pat.isPrefixOf hay then some 0
  else
    match hay with
    | [] => none
    | _ :: t => (findSub t pat).map (· + 1)

/-- `std::string::find(pat, start)`. -/
def findSubFrom (hay pat : Bytes) (start : Nat) : Option Nat :=
  (findSub (hay.drop start) pat).map (· + start)

/-- `std::string::find_first_of(set, start)`. -/
def findFirstOfFrom (hay : Bytes) (set : Bytes) (start : Nat) : Option Nat :=
  ((hay.drop start).findIdx? (fun c => c ∈ set)).map (· + start)

/-- `std::string` `operator<` (`char_traits<char>` compares bytes as
unsigned). -/
def bytesLt : Bytes → Bytes → Bool
  | _, [] => false
  | [], _ :: _ => true
  | a :: as, b :: bs =>
    if a.toNat < b.toNat then true
    else if b.toNat < a.toNat then false
    else bytesLt as bs

/-- `std::map::find`. -/
def mapLookup : List (Bytes × Bytes) → Bytes → Option Bytes
  | [], _ => none
  | (k, v) :: t, key => if k = key then some v else mapLookup t key

/-- Assignment through a `std::map` iterator (`it->second = v` or
`it->second += ...`). -/
def mapSet : List (Bytes × Bytes) → Bytes → Bytes → List (Bytes × Bytes)
  | [], _, _ => []
  | (k, v) :: t, key, nv => if k = key then (k, nv) :: t else (k, v) :: mapSet t key nv

/-- `std::map::insert` of a fresh key, keeping the list sorted by key. -/
def mapInsertSorted : List (Bytes × Bytes) → Bytes → Bytes → List (Bytes × Bytes)
  | [], k, v => [(k, v)]
  | (k', v') :: t, k, v =>
    if bytesLt k k' then (k, v) :: (k', v') :: t
    else (k', v') :: mapInsertSorted t k v

/-- `std::stoull(s, 0, 10)`: skip C whitespace, optional sign, decimal
digits (at least one required); wraps a `-` value modulo 2^64 and throws
(`none`) when the magnitude exceeds 2^64 - 1.  Trailing garbage is
ignored, as in the C++ function. -/
def stoullDec (s : Bytes) : Option Nat :=
  let s := s.dropWhile (fun c => c = ' ' ∨ c = '\t' ∨ c = '\n' ∨ c = '\x0b' ∨ c = '\x0c' ∨ c = '\r')
  let (neg, s) :=
    match s with
    | '-' :: t => (true, t)
    | '+' :: t => (false, t)
    | t => (false, t)
  let ds := s.takeWhile asciiIsDigit
  if ds = [] then none
  else
    let mag := ds.foldl (fun a c => a * 10 + (c.toNat - 48)) 0
    if mag > 2 ^ 64 - 1 then none
    else some (if neg then (2 ^ 64 - mag) % 2 ^ 64 else mag)

def hexDigitVal (c : Char) : Nat :=
  if 48 ≤ c.toNat ∧ c.toNat ≤ 57 then c.toNat - 48
  else if 97 ≤ c.toNat ∧ c.toNat ≤ 102 then c.toNat - 87
  else c.toNat - 55

def isHexDigitB (c : Char) : Bool :=
  (48 ≤ c.toNat ∧ c.toNat ≤ 57) ∨ (97 ≤ c.toNat ∧ c.toNat ≤ 102) ∨
  (65 ≤ c.toNat ∧ c.toNat ≤ 70)

/-- `std::stoull(s, 0, 16)`: skip C whitespace, optional sign, optional
`0x`/`0X` prefix (only when followed by a hex digit), hex digits. -/
def stoullHex (s : Bytes) : Option Nat :=
  let s := s.dropWhile (fun c => c = ' ' ∨ c = '\t' ∨ c = '\n' ∨ c = '\x0b' ∨ c = '\x0c' ∨ c = '\r')
  let (neg, s) :=
    match s with
    | '-' :: t => (true, t)
    | '+' :: t => (false, t)
    | t => (false, t)
  let s :=
    match s with
    | '0' :: x :: t => if (x = 'x' ∨ x = 'X') ∧ isHexDigitB (t.headD ' ') then t else s
    | t => t
  let ds := s.takeWhile isHexDigitB
  if ds = [] then none
  else
    let mag := ds.foldl (fun a c => a * 16 + hexDigitVal c) 0
    if mag > 2 ^ 64 - 1 then none
    else some (if neg then (2 ^ 64 - mag) % 2 ^ 64 else mag)

/-! ## Data model (`HttpRequest.hpp`, `HttpRequestParser.hpp`) -/

inductive HttpMethod
  | GET | HEAD | POST | PUT | DELETE | CONNECT | OPTIONS | TRACE | UNKNOWN
deriving DecidableEq, Repr

inductive HttpParsingState
  | REQUEST_LINE | HEADERS | BODY | CHUNKED_BODY_SIZE | CHUNKED_BODY_DATA
  | CHUNKED_BODY_TRAILER | COMPLETE
deriving DecidableEq, Repr

/-- `HttpRequestParser::Status`. -/
inductive ParserStatus
  | WAIT_FOR_DATA | CONTINUE | DONE | ERROR
deriving DecidableEq, Repr

/-- `HttpRequest`: status codes are carried as their numeric values
(`HttpUtils::HttpStatusCode` is a plain enum of HTTP codes). -/
structure HttpRequest where
  buffer : Bytes
  parsed_buffer_offset : Nat
  method_code : HttpMethod
  method_raw : Bytes
  request_target : Bytes
  http_version : Bytes
  headers : List (Bytes × Bytes)
  body : Bytes
  body_length : Nat
  state : HttpParsingState
  is_chanked : Bool
  expected_chunk_length : Nat
  is_error : Bool
  status_code : Nat
  err_message : Bytes
deriving DecidableEq, Repr

/-- The `HttpRequest` default constructor (418 = I_AM_TEAPOD). -/
def freshRequest : HttpRequest :=
  { buffer := [], parsed_buffer_offset := 0, method_code := .UNKNOWN,
    method_raw := [], request_target := [], http_version := [], headers := [],
    body := [], body_length := 0, state := .REQUEST_LINE, is_chanked := false,
    expected_chunk_length := 0, is_error := false, status_code := 418,
    err_message := [] }

namespace HttpRequest

def PARSED_OFFSET_THRESHOLD : Nat := 4096

/-- `HttpRequest::getUnparsedBuffer`. -/
def strView (r : HttpRequest) : Bytes := r.buffer.drop r.parsed_buffer_offset

/-- `HttpRequest::eraseParsedBuffer` (default argument `bytes = 0`). -/
def eraseParsedBuffer (r : HttpRequest) (bytes : Nat) : HttpRequest :=
  let amount := if bytes = 0 then r.parsed_buffer_offset
                else min bytes r.parsed_buffer_offset
  { r with buffer := r.buffer.drop amount,
           parsed_buffer_offset := r.parsed_buffer_offset - amount }

/-- `HttpRequest::commitParsedBytes`. -/
def commitParsedBytes (r : HttpRequest) (bytes : Nat) : HttpRequest :=
  { r with parsed_buffer_offset := r.parsed_buffer_offset + bytes }

/-- `HttpRequest::appendBuffer`. -/
def appendBuffer (r : HttpRequest) (data : Bytes) : HttpRequest :=
  let r := { r with buffer := r.buffer ++ data }
  if r.parsed_buffer_offset ≥ PARSED_OFFSET_THRESHOLD then r.eraseParsedBuffer 0
  else r

/-- `HttpRequest::setParsingState`. -/
def setParsingState (r : HttpRequest) (s : HttpParsingState) : HttpRequest :=
  let r := { r with state := s }
  if s = .COMPLETE then { r with buffer := [], parsed_buffer_offset := 0 }
  else if r.parsed_buffer_offset ≥ PARSED_OFFSET_THRESHOLD then
    r.eraseParsedBuffer 0
  else r

/-- `HttpRequest::setErrorStatus`. -/
def setErrorStatus (r : HttpRequest) (msg : Bytes) (code : Nat) : HttpRequest :=
  { r with state := .COMPLETE, is_error := true, err_message := msg,
           status_code := code }

/-- `HttpRequest::setMethod`. -/
def setMethod (r : HttpRequest) (method : Bytes) : HttpRequest :=
  { r with method_raw := method,
           method_code :=
             if method = strB "GET" then .GET
             else if method = strB "HEAD" then .HEAD
             else if method = strB "POST" then .POST
             else if method = strB "PUT" then .PUT
             else if method = strB "DELETE" then .DELETE
             else if method = strB "CONNECT" then .CONNECT
             else if method = strB "OPTIONS" then .OPTIONS
             else if method = strB "TRACE" then .TRACE
             else .UNKNOWN }

def setRequestTarget (r : HttpRequest) (t : Bytes) : HttpRequest :=
  { r with request_target := t }

def setHttpVersion (r : HttpRequest) (v : Bytes) : HttpRequest :=
  { r with http_version := v }

def setBody (r : HttpRequest) (b : Bytes) : HttpRequest := { r with body := b }

def setBodyLength (r : HttpRequest) (n : Nat) : HttpRequest :=
  { r with body_length := n }

def setChunkedStatus (r : HttpRequest) (b : Bool) : HttpRequest :=
  { r with is_chanked := b }

def setExpectedChunkLength (r : HttpRequest) (n : Nat) : HttpRequest :=
  { r with expected_chunk_length := n }

/-- `HttpRequest::appendBody`. -/
def appendBody (r : HttpRequest) (data : Bytes) : HttpRequest :=
  { r with body_length := r.body_length + data.length, body := r.body ++ data }

/-- `HttpRequest::insertHeader`: lowercased key; a duplicate key appends
`,value` to the stored value. -/
def insertHeader (r : HttpRequest) (field_name value : Bytes) : HttpRequest :=
  let lowercase_name := lowerBytes field_name
  match mapLookup r.headers lowercase_name with
  | some old =>
      { r with headers := mapSet r.headers lowercase_name (old ++ [','] ++ value) }
  | none => { r with headers := mapInsertSorted r.headers lowercase_name value }

/-- `HttpRequest::hasHeader`. -/
def hasHeader (r : HttpRequest) (field_name : Bytes) : Bool :=
  (mapLookup r.headers (lowerBytes field_name)).isSome

/-- `HttpRequest::getHeader` (empty string when absent). -/
def getHeader (r : HttpRequest) (field_name : Bytes) : Bytes :=
  (mapLookup r.headers (lowerBytes field_name)).getD []

end HttpRequest

/-! ## Parser (`HttpRequestParser.cpp`) -/

def crlf : Bytes := ['\r', '\n']

def crlfcrlf : Bytes := ['\r', '\n', '\r', '\n']

namespace HttpRequestParser

open HttpRequest

def MAX_REQUEST_TARGET_LENGTH : Nat := 2048

/-- `HttpRequestParser::validateTokenChar` (RFC 7230 tchar). -/
def validateTokenChar (c : Char) : Bool :=
  ('A' ≤ c ∧ c ≤ 'Z') ∨ ('a' ≤ c ∧ c ≤ 'z') ∨ ('0' ≤ c ∧ c ≤ '9') ∨
  c = '!' ∨ c = '#' ∨ c = '$' ∨ c = '%' ∨ c = '&' ∨ c = '\'' ∨ c = '*' ∨
  c = '+' ∨ c = '-' ∨ c = '.' ∨ c = '^' ∨ c = '_' ∨ c = '`' ∨ c = '|' ∨ c = '~'

/-- `HttpRequestParser::validateHeaderField`. -/
def validateHeaderField (field : Bytes) : Bool :=
  ¬ field.isEmpty ∧ field.all validateTokenChar

/-- A byte failing the request-target character check
(`ch < 32 || ch == 127 || ...` over a signed `char`: bytes 128..255 are
negative in C++ and therefore also rejected by `ch < 32`). -/
def forbiddenTargetChar (c : Char) : Bool :=
  c.toNat < 32 ∨ c.toNat ≥ 128 ∨ c.toNat = 127 ∨ c = '<' ∨ c = '>' ∨
  c = '"' ∨ c = '\\'

/-- `HttpRequestParser::validateRequestTarget`: the returned request carries
the error status set on failure. -/
def validateRequestTarget (target : Bytes) (r : HttpRequest) :
    Bool × HttpRequest :=
  let lower_target := lowerBytes target
  if lower_target.length > MAX_REQUEST_TARGET_LENGTH then
    (false, r.setErrorStatus (strB "Request target too long: " ++ target) 400)
  else
    match lower_target.find? forbiddenTargetChar with
    | some ch =>
        (false, r.setErrorStatus
          (strB "Request target contains forbidden character: " ++ [ch]) 400)
    | none =>
      match findSub lower_target (strB "://") with
      | some scheme_end =>
          let scheme := lower_target.take scheme_end
          if scheme ≠ strB "http" ∧ scheme ≠ strB "https" then
            (false, r.setErrorStatus
              (strB "Only http/https schemes allowed: " ++ scheme) 400)
          else (true, r)
      | none =>
          if lower_target.headD (Char.ofNat 0) ≠ '/' then
            (false, r.setErrorStatus
              (strB "Request target without scheme should start with /") 400)
          else (true, r)

/-- Regex `^HTTP/\d+\.\d+$`. -/
def matchGeneralVersion (v : Bytes) : Bool :=
  (strB "HTTP/").isPrefixOf v &&
  (let rest := v.drop 5
   let ds := rest.takeWhile asciiIsDigit
   (!ds.isEmpty) &&
   (match rest.drop ds.length with
    | '.' :: rest2 => (!rest2.isEmpty) && rest2.all asciiIsDigit
    | _ => false))

/-- Regex `^HTTP/1\.[01]$`. -/
def matchSupportedVersion (v : Bytes) : Bool :=
  v = strB "HTTP/1.0" ∨ v = strB "HTTP/1.1"

/-- `HttpRequestParser::validateHttpVersion`. -/
def validateHttpVersion (version : Bytes) (r : HttpRequest) :
    Bool × HttpRequest :=
  let is_valid := matchGeneralVersion version
  let is_supported := matchSupportedVersion version
  if is_valid ∧ ¬ is_supported then
    (false, r.setErrorStatus
      (strB "Valid format but unsupported HTTP version: " ++ version) 505)
  else if ¬ is_valid then
    (false, r.setErrorStatus
      (strB "Invalid HTTP version format: " ++ version) 400)
  else (true, r)

/-- `HttpRequestParser::validateAndTrimHeaderValue`: returns the trimmed
value, `none` standing for `false` (the C++ version writes the trimmed value
back through its reference argument). -/
def validateAndTrimHeaderValue (value : Bytes) : Option Bytes :=
  let wsp := fun c => c = ' ' ∨ c = '\t'
  let core := ((value.dropWhile wsp).reverse.dropWhile wsp).reverse
  if core.isEmpty then none
  else if core.any (fun c => c.toNat ≤ 31 ∨ c.toNat = 127 ∨ c = '\r' ∨ c = '\n')
  then none
  else some core

/-- `HttpRequestParser::parseRequestHeaderLine`. -/
def parseRequestHeaderLine (header : Bytes) (r : HttpRequest) :
    ParserStatus × HttpRequest :=
  match findSub header [':'] with
  | none =>
      (.ERROR, r.setErrorStatus
        (strB "Malformed header - missing colon: " ++ header) 400)
  | some colon_pos =>
      let field_name := header.take colon_pos
      let value := header.drop (colon_pos + 1)
      if ¬ validateHeaderField field_name then
        (.ERROR, r.setErrorStatus
          (strB "Malformed header - invalid field name in line: " ++ header) 400)
      else
        match validateAndTrimHeaderValue value with
        | none =>
            (.ERROR, r.setErrorStatus
              (strB "Malformed header - invalid value in line: " ++ header) 400)
        | some value => (.CONTINUE, r.insertHeader field_name value)

/-- Body of the header-splitting `while` loop in
`HttpRequestParser::parseRequestHeaders`, recursing on the not yet split
part of the headers region. -/
def parseHeaderLinesLoop (content : Bytes) (r : HttpRequest) :
    ParserStatus × HttpRequest :=
  if hc : content = [] then (.CONTINUE, r)
  else
    let end_pos := (findSub content crlf).getD content.length
    let header_line := content.take end_pos
    match parseRequestHeaderLine header_line r with
    | (.ERROR, r1) => (.ERROR, r1)
    | (_, r1) =>
        if end_pos = content.length then (.CONTINUE, r1)
        else parseHeaderLinesLoop (content.drop (end_pos + 2)) r1
termination_by content.length
decreasing_by
  simp only [List.length_drop]
  have : 0 < content.length := List.length_pos.mpr hc
  omega

/-- `HttpRequestParser::validateHeadersSetup`. -/
def validateHeadersSetup (r : HttpRequest) : Bool × HttpRequest :=
  if ¬ r.hasHeader (strB "Host") then
    (false, r.setErrorStatus (strB "Host header is missing") 400)
  else if r.hasHeader (strB "Transfer-Encoding") ∧
          r.hasHeader (strB "Content-Length") then
    (false, r.setErrorStatus
      (strB "Malformed header - cant have both Content-Length and Transfer-Encoding")
      400)
  else
    let step1 : Bool × HttpRequest :=
      if r.hasHeader (strB "Transfer-Encoding") then
        let transfer_encoding := lowerBytes (r.getHeader (strB "Transfer-Encoding"))
        if (findSub transfer_encoding (strB "chunked")).isSome then
          (true, (r.setChunkedStatus true).setParsingState .CHUNKED_BODY_SIZE)
        else
          (false, r.setErrorStatus
            (strB "Unsupported Transfer-Encoding type: " ++ transfer_encoding) 400)
      else (true, r.setParsingState .BODY)
    match step1 with
    | (false, r1) => (false, r1)
    | (true, r1) =>
        if r1.hasHeader (strB "Content-Length") then
          match stoullDec (r1.getHeader (strB "content-length")) with
          | some content_length => (true, r1.setBodyLength content_length)
          | none =>
              (false, r1.setErrorStatus
                (strB "Failed to parse Content-Length: " ++
                  r1.getHeader (strB "content-length")) 400)
        else (true, r1)

/-- `HttpRequestParser::parseRequestLine`. -/
def parseRequestLine (r : HttpRequest) : ParserStatus × HttpRequest :=
  let message := r.strView
  match findSub message crlf with
  | none => (.WAIT_FOR_DATA, r)
  | some request_line_end =>
    let request_line := message.take request_line_end
    if request_line.isEmpty then
      (.ERROR, r.setErrorStatus (strB "Empty request line") 400)
    else
      match findSub request_line [' '] with
      | none =>
          (.ERROR, r.setErrorStatus
            (strB "Malformed request line - missing spaces") 400)
      | some method_end =>
        let target_start := method_end + 1
        match findSubFrom request_line [' '] target_start with
        | none =>
            (.ERROR, r.setErrorStatus
              (strB "Malformed request line - missing target") 400)
        | some target_end =>
          let version_start := target_end + 1
          let method := request_line.take method_end
          let target := (request_line.drop target_start).take (target_end - target_start)
          let version := request_line.drop version_start
          let r := r.setMethod method
          if r.method_code = .UNKNOWN then
            (.ERROR, r.setErrorStatus
              (strB "Method is unrecognized or not implemented: " ++ method) 501)
          else
            match validateRequestTarget target r with
            | (false, r1) => (.ERROR, r1)
            | (true, r1) =>
              let r1 := r1.setRequestTarget target
              match validateHttpVersion version r1 with
              | (false, r2) => (.ERROR, r2)
              | (true, r2) =>
                let r2 := r2.setHttpVersion version
                let r2 := r2.commitParsedBytes (request_line.length + 2)
                let r2 := r2.setParsingState .HEADERS
                (.CONTINUE, r2)

/-- `HttpRequestParser::parseRequestHeaders`. -/
def parseRequestHeaders (r : HttpRequest) : ParserStatus × HttpRequest :=
  let message := r.strView
  if findSub message crlf = some 0 then
    (.ERROR, r.setErrorStatus (strB "Malformed header - missing Host") 400)
  else
    match findSub message crlfcrlf with
    | none => (.WAIT_FOR_DATA, r)
    | some headers_end =>
      let headers_content := message.take headers_end
      match parseHeaderLinesLoop headers_content r with
      | (.ERROR, r1) => (.ERROR, r1)
      | (_, r1) =>
        let r1 := r1.commitParsedBytes (headers_end + 4)
        match validateHeadersSetup r1 with
        | (false, r2) => (.ERROR, r2)
        | (true, r2) => (.CONTINUE, r2)

/-- `HttpRequestParser::parseRequestBody`. -/
def parseRequestBody (r : HttpRequest) : ParserStatus × HttpRequest :=
  let message := r.strView
  if r.body_length > message.length then (.WAIT_FOR_DATA, r)
  else if r.body_length ≠ message.length then
    (.ERROR, r.setErrorStatus
      (strB "Content-Length mismatch: expected " ++ toBytes r.body_length ++
        strB " bytes, got " ++ toBytes message.length ++ strB " bytes") 400)
  else
    let r := r.setBody message
    let r := r.commitParsedBytes message.length
    let r := r.setParsingState .COMPLETE
    (.CONTINUE, r)

/-- `HttpRequestParser::parseRequestChunkedBodySize`. -/
def parseRequestChunkedBodySize (r : HttpRequest) : ParserStatus × HttpRequest :=
  let message := r.strView
  match findSub message crlf with
  | none => (.WAIT_FOR_DATA, r)
  | some chunk_size_end =>
    let hex_chunk_size := message.take chunk_size_end
    match stoullHex hex_chunk_size with
    | none =>
        (.ERROR, r.setErrorStatus
          (strB "Failed to parse chunk data size: " ++ hex_chunk_size) 400)
    | some chunk_size =>
      let r := r.setExpectedChunkLength chunk_size
      let r := if r.expected_chunk_length > 0 then
                 r.setParsingState .CHUNKED_BODY_DATA
               else r.setParsingState .CHUNKED_BODY_TRAILER
      let r := r.commitParsedBytes (chunk_size_end + 2)
      (.CONTINUE, r)

/-- `HttpRequestParser::parseRequestChunkedBodyData`. -/
def parseRequestChunkedBodyData (r : HttpRequest) : ParserStatus × HttpRequest :=
  let message := r.strView
  match findSub message crlf with
  | none => (.WAIT_FOR_DATA, r)
  | some chunk_data_end =>
    let chunk_data := message.take chunk_data_end
    if chunk_data.length ≠ r.expected_chunk_length then
      (.ERROR, r.setErrorStatus
        (strB "Chunk length mismatch: expected " ++
          toBytes r.expected_chunk_length ++ strB " bytes, got " ++
          toBytes chunk_data.length ++ strB " bytes") 400)
    else
      let r := r.commitParsedBytes (chunk_data_end + 2)
      let r := r.appendBody chunk_data
      let r := r.setParsingState .CHUNKED_BODY_SIZE
      (.CONTINUE, r)

/-- `HttpRequestParser::parseRequestChunkedBodyTrailer`. -/
def parseRequestChunkedBodyTrailer (r : HttpRequest) : ParserStatus × HttpRequest :=
  let message := r.strView
  match findSub message crlf with
  | none => (.WAIT_FOR_DATA, r)
  | some chunk_trailer_end =>
    if chunk_trailer_end ≠ 0 ∨ message.length ≠ 2 then
      (.ERROR, r.setErrorStatus (strB "Malformed chunked body trailer") 400)
    else
      let r := r.commitParsedBytes (chunk_trailer_end + 2)
      let r := r.eraseParsedBuffer 0
      let r := r.setParsingState .COMPLETE
      (.CONTINUE, r)

/-- One iteration of the `while (true)` dispatch in
`HttpRequestParser::parseRequest` (the `COMPLETE` case is handled by the
driving loop `parseLoop`). -/
def parseStep (r : HttpRequest) : ParserStatus × HttpRequest :=
  match r.state with
  | .REQUEST_LINE => parseRequestLine r
  | .HEADERS => parseRequestHeaders r
  | .BODY => parseRequestBody r
  | .CHUNKED_BODY_SIZE => parseRequestChunkedBodySize r
  | .CHUNKED_BODY_DATA => parseRequestChunkedBodyData r
  | .CHUNKED_BODY_TRAILER => parseRequestChunkedBodyTrailer r
  | .COMPLETE => (.DONE, r)

end HttpRequestParser

/-! ## Facts about `findSub` -/

theorem pfx_of_append_of_length_le {l a b : Bytes} (h : l <+: a ++ b)
    (hl : l.length ≤ a.length) : l <+: a := by
  rw [List.prefix_iff_eq_take] at h ⊢
  rw [h, List.take_append_eq_append_take]
  have : l.length - a.length = 0 := by omega
  simp [this]

theorem findSub_le_length {hay pat : Bytes} {i : Nat}
    (h : findSub hay pat = some i) : i ≤ hay.length := by
  induction hay generalizing i with
  | nil =>
      unfold findSub at h
      split at h
      · simp_all
      · simp at h
  | cons c t ih =>
      unfold findSub at h
      split at h
      · obtain rfl : (0 : Nat) = i := by simpa using h
        omega
      · simp only [Option.map_eq_some'] at h
        obtain ⟨j, hj, rfl⟩ := h
        have := ih hj
        simp [List.length_cons]
        omega

theorem findSub_occurs {hay pat : Bytes} {i : Nat}
    (h : findSub hay pat = some i) : pat <+: hay.drop i := by
  induction hay generalizing i with
  | nil =>
      unfold findSub at h
      split at h
      · simp_all
      · simp at h
  | cons c t ih =>
      unfold findSub at h
      split at h
      · rename_i hp
        obtain rfl : (0 : Nat) = i := by simpa using h
        simpa using (List.isPrefixOf_iff_prefix).mp hp
      · simp only [Option.map_eq_some'] at h
        obtain ⟨j, hj, rfl⟩ := h
        simpa using ih hj

theorem findSub_bound {hay pat : Bytes} {i : Nat}
    (h : findSub hay pat = some i) : i + pat.length ≤ hay.length := by
  have h1 := findSub_le_length h
  have h2 := (findSub_occurs h).length_le
  simp [List.length_drop] at h2
  omega

theorem findSub_min {hay pat : Bytes} {i : Nat}
    (h : findSub hay pat = some i) : ∀ j < i, ¬ pat <+: hay.drop j := by
  induction hay generalizing i with
  | nil =>
      unfold findSub at h
      split at h
      · obtain rfl : (0 : Nat) = i := by simpa using h
        omega
      · simp at h
  | cons c t ih =>
      unfold findSub at h
      split at h
      · obtain rfl : (0 : Nat) = i := by simpa using h
        omega
      · rename_i hp
        simp only [Option.map_eq_some'] at h
        obtain ⟨j', hj', rfl⟩ := h
        intro j hj
        cases j with
        | zero =>
            simpa using fun hcon => hp ((List.isPrefixOf_iff_prefix).mpr hcon)
        | succ j =>
            have := ih hj' j (by omega)
            simpa using this

theorem findSub_none {hay pat : Bytes}
    (h : findSub hay pat = none) : ∀ j, ¬ pat <+: hay.drop j := by
  induction hay with
  | nil =>
      unfold findSub at h
      split at h
      · simp at h
      · intro j hcon
        rename_i hp
        have : pat = [] := List.prefix_nil.mp (by simpa using hcon)
        subst this
        exact hp (by simp [List.isPrefixOf])
  | cons c t ih =>
      unfold findSub at h
      split at h
      · simp at h
      · rename_i hp
        simp only [Option.map_eq_none'] at h
        intro j
        cases j with
        | zero =>
            simpa using fun hcon => hp ((List.isPrefixOf_iff_prefix).mpr hcon)
        | succ j => simpa using ih h j

theorem findSub_isSome_of_occurs {hay pat : Bytes} {i : Nat}
    (h : pat <+: hay.drop i) : ∃ j, findSub hay pat = some j := by
  cases hf : findSub hay pat with
  | none => exact absurd h (findSub_none hf i)
  | some j => exact ⟨j, rfl⟩

/-- A first occurrence inside a prefix stays the first occurrence of the
extended string. -/
theorem findSub_append {v w pat : Bytes} {i : Nat}
    (h : findSub v pat = some i) : findSub (v ++ w) pat = some i := by
  have hocc : pat <+: (v ++ w).drop i := by
    rw [List.drop_append_of_le_length (findSub_le_length h)]
    exact (findSub_occurs h).trans (List.prefix_append _ _)
  obtain ⟨j, hj⟩ := findSub_isSome_of_occurs hocc
  have hji : ¬ i < j := fun hc => findSub_min hj i hc hocc
  have hij : ¬ j < i := by
    intro hc
    have hjb := findSub_bound h
    have hoccj : pat <+: (v ++ w).drop j := findSub_occurs hj
    rw [List.drop_append_of_le_length (by omega)] at hoccj
    have : pat <+: v.drop j := by
      apply pfx_of_append_of_length_le hoccj
      simp [List.length_drop]
      omega
    exact findSub_min h j hc this
  have : i = j := by omega
  subst this
  exact hj

/-- An occurrence of the extended string that lies inside the prefix is an
occurrence of the prefix. -/
theorem findSub_restrict {v w pat : Bytes} {i : Nat}
    (h : findSub (v ++ w) pat = some i) (hle : i + pat.length ≤ v.length) :
    findSub v pat = some i := by
  have hocc : pat <+: (v ++ w).drop i := findSub_occurs h
  rw [List.drop_append_of_le_length (by omega)] at hocc
  have hocc' : pat <+: v.drop i := by
    apply pfx_of_append_of_length_le hocc
    simp [List.length_drop]
    omega
  obtain ⟨j, hj⟩ := findSub_isSome_of_occurs hocc'
  have hji : ¬ i < j := fun hc => findSub_min hj i hc hocc'
  have hij : ¬ j < i := by
    intro hc
    have := findSub_append (w := w) hj
    have heq : i = j := by
      have := h.symm.trans this
      simpa using this
    omega
  have : i = j := by omega
  subst this
  exact hj

theorem findSub_sub_none {v w pat : Bytes}
    (h : findSub (v ++ w) pat = none) : findSub v pat = none := by
  cases hf : findSub v pat with
  | none => rfl
  | some j => rw [findSub_append (w := w) hf] at h; simp at h

theorem findSub_straddle_none {v w pat : Bytes} {i : Nat}
    (h : findSub (v ++ w) pat = some i) (hgt : v.length < i + pat.length) :
    findSub v pat = none := by
  cases hf : findSub v pat with
  | none => rfl
  | some j =>
      have := findSub_append (w := w) hf
      have heq : j = i := by
        have := this.symm.trans h
        simpa using this
      subst heq
      have := findSub_bound hf
      omega

theorem findSub_zero_iff {hay pat : Bytes} :
    findSub hay pat = some 0 ↔ pat.isPrefixOf hay := by
  constructor
  · intro h
    exact (List.isPrefixOf_iff_prefix).mpr (by simpa using findSub_occurs h)
  · intro h
    unfold findSub
    simp [h]

/-! ## Abstraction of the request state

`core` collects every `HttpRequest` field except the raw byte buffer and the
parsed offset; together with the unparsed view `strView` it determines the
behaviour of every parser step. -/

/-- Logical request state: all fields except `buffer` and
`parsed_buffer_offset`. -/
structure CoreState where
  method_code : HttpMethod
  method_raw : Bytes
  request_target : Bytes
  http_version : Bytes
  headers : List (Bytes × Bytes)
  body : Bytes
  body_length : Nat
  state : HttpParsingState
  is_chanked : Bool
  expected_chunk_length : Nat
  is_error : Bool
  status_code : Nat
  err_message : Bytes
deriving DecidableEq, Repr

def core (r : HttpRequest) : CoreState :=
  { method_code := r.method_code, method_raw := r.method_raw,
    request_target := r.request_target, http_version := r.http_version,
    headers := r.headers, body := r.body, body_length := r.body_length,
    state := r.state, is_chanked := r.is_chanked,
    expected_chunk_length := r.expected_chunk_length, is_error := r.is_error,
    status_code := r.status_code, err_message := r.err_message }

/-- The claimed buffer invariant: the parsed offset never exceeds the buffer
length. -/
def offsetInv (r : HttpRequest) : Prop :=
  r.parsed_buffer_offset ≤ r.buffer.length

namespace HttpRequest

theorem strView_eraseParsedBuffer (r : HttpRequest) (b : Nat) :
    (r.eraseParsedBuffer b).strView = r.strView := by
  unfold eraseParsedBuffer strView
  have hle : (if b = 0 then r.parsed_buffer_offset
              else min b r.parsed_buffer_offset) ≤ r.parsed_buffer_offset := by
    split <;> omega
  simp only [List.drop_drop]
  congr 1
  omega

theorem core_eraseParsedBuffer (r : HttpRequest) (b : Nat) :
    core (r.eraseParsedBuffer b) = core r := rfl

theorem strView_commitParsedBytes (r : HttpRequest) (k : Nat) :
    (r.commitParsedBytes k).strView = r.strView.drop k := by
  unfold commitParsedBytes strView
  simp [List.drop_drop, Nat.add_comm]

theorem core_commitParsedBytes (r : HttpRequest) (k : Nat) :
    core (r.commitParsedBytes k) = core r := rfl

theorem strView_appendBuffer (r : HttpRequest) (d : Bytes)
    (h : offsetInv r) :
    (r.appendBuffer d).strView = r.strView ++ d := by
  unfold appendBuffer
  dsimp only
  split
  · rw [strView_eraseParsedBuffer]
    unfold strView
    exact List.drop_append_of_le_length h
  · unfold strView
    exact List.drop_append_of_le_length h

theorem core_appendBuffer (r : HttpRequest) (d : Bytes) :
    core (r.appendBuffer d) = core r := by
  unfold appendBuffer
  dsimp only
  split <;> rfl

theorem state_appendBuffer (r : HttpRequest) (d : Bytes) :
    (r.appendBuffer d).state = r.state := by
  unfold appendBuffer
  dsimp only
  split <;> rfl

theorem strView_setParsingState (r : HttpRequest) (s : HttpParsingState) :
    (r.setParsingState s).strView =
      if s = .COMPLETE then [] else r.strView := by
  unfold setParsingState
  dsimp only
  split
  · simp [strView]
  · split
    · rw [strView_eraseParsedBuffer]
      rfl
    · rfl

theorem core_setParsingState (r : HttpRequest) (s : HttpParsingState) :
    core (r.setParsingState s) = { core r with state := s } := by
  unfold setParsingState
  dsimp only
  split
  · rfl
  · split <;> rfl

theorem strView_setErrorStatus (r : HttpRequest) (m : Bytes) (c : Nat) :
    (r.setErrorStatus m c).strView = r.strView := rfl

theorem core_setErrorStatus (r : HttpRequest) (m : Bytes) (c : Nat) :
    core (r.setErrorStatus m c) =
      { core r with state := .COMPLETE, is_error := true, err_message := m,
                    status_code := c } := rfl

theorem strView_setMethod (r : HttpRequest) (m : Bytes) :
    (r.setMethod m).strView = r.strView := rfl

theorem strView_setRequestTarget (r : HttpRequest) (t : Bytes) :
    (r.setRequestTarget t).strView = r.strView := rfl

theorem strView_setHttpVersion (r : HttpRequest) (v : Bytes) :
    (r.setHttpVersion v).strView = r.strView := rfl

theorem strView_setBody (r : HttpRequest) (b : Bytes) :
    (r.setBody b).strView = r.strView := rfl

theorem strView_setBodyLength (r : HttpRequest) (n : Nat) :
    (r.setBodyLength n).strView = r.strView := rfl

theorem strView_setChunkedStatus (r : HttpRequest) (b : Bool) :
    (r.setChunkedStatus b).strView = r.strView := rfl

theorem strView_setExpectedChunkLength (r : HttpRequest) (n : Nat) :
    (r.setExpectedChunkLength n).strView = r.strView := rfl

theorem strView_appendBody (r : HttpRequest) (d : Bytes) :
    (r.appendBody d).strView = r.strView := rfl

theorem strView_insertHeader (r : HttpRequest) (k v : Bytes) :
    (r.insertHeader k v).strView = r.strView := by
  unfold insertHeader
  dsimp only
  cases mapLookup r.headers (lowerBytes k) <;> rfl

theorem offsetInv_eraseParsedBuffer (r : HttpRequest) (b : Nat)
    (h : offsetInv r) : offsetInv (r.eraseParsedBuffer b) := by
  unfold offsetInv eraseParsedBuffer at *
  have hle : (if b = 0 then r.parsed_buffer_offset
              else min b r.parsed_buffer_offset) ≤ r.parsed_buffer_offset := by
    split <;> omega
  simp only [List.length_drop]
  omega

theorem offsetInv_appendBuffer (r : HttpRequest) (d : Bytes)
    (h : offsetInv r) : offsetInv (r.appendBuffer d) := by
  unfold appendBuffer
  dsimp only
  split
  · apply offsetInv_eraseParsedBuffer
    unfold offsetInv at *
    simp only [List.length_append]
    omega
  · unfold offsetInv at *
    simp only [List.length_append]
    omega

theorem offsetInv_commitParsedBytes (r : HttpRequest) (k : Nat)
    (h : k ≤ r.strView.length) (hinv : offsetInv r) :
    offsetInv (r.commitParsedBytes k) := by
  unfold offsetInv commitParsedBytes at *
  unfold strView at h
  simp only [List.length_drop] at h
  simp only
  omega

theorem offsetInv_setParsingState (r : HttpRequest) (s : HttpParsingState)
    (h : offsetInv r) : offsetInv (r.setParsingState s) := by
  unfold setParsingState
  dsimp only
  split
  · unfold offsetInv
    simp
  · split
    · exact offsetInv_eraseParsedBuffer _ _ h
    · exact h

theorem offsetInv_setErrorStatus (r : HttpRequest) (m : Bytes) (c : Nat)
    (h : offsetInv r) : offsetInv (r.setErrorStatus m c) := h

theorem state_setParsingState (r : HttpRequest) (s : HttpParsingState) :
    (r.setParsingState s).state = s := by
  unfold setParsingState
  dsimp only
  split
  · rfl
  · split <;> rfl

end HttpRequest

namespace HttpRequestParser

open HttpRequest

theorem validateRequestTarget_cases (t : Bytes) (r : HttpRequest) :
    validateRequestTarget t r = (true, r) ∨
    ∃ m c, validateRequestTarget t r = (false, r.setErrorStatus m c) := by
  unfold validateRequestTarget
  dsimp only
  split
  · exact Or.inr ⟨_, _, rfl⟩
  · rcases hx : (lowerBytes t).find? forbiddenTargetChar with _ | ch <;>
      simp only [hx]
    · rcases hy : findSub (lowerBytes t) (strB "://") with _ | se <;>
        simp only [hy]
      · split
        · exact Or.inr ⟨_, _, rfl⟩
        · exact Or.inl rfl
      · split
        · exact Or.inr ⟨_, _, rfl⟩
        · exact Or.inl rfl
    · exact Or.inr ⟨_, _, rfl⟩

theorem validateRequestTarget_true {t : Bytes} {r : HttpRequest}
    (h : (validateRequestTarget t r).1 = true) :
    validateRequestTarget t r = (true, r) := by
  rcases validateRequestTarget_cases t r with h1 | ⟨m, c, h1⟩
  · exact h1
  · rw [h1] at h
    simp at h

theorem validateRequestTarget_buffer (t : Bytes) (r : HttpRequest) :
    (validateRequestTarget t r).2.buffer = r.buffer ∧
    (validateRequestTarget t r).2.parsed_buffer_offset =
      r.parsed_buffer_offset := by
  rcases validateRequestTarget_cases t r with h1 | ⟨m, c, h1⟩ <;>
    rw [h1] <;> exact ⟨rfl, rfl⟩

theorem validateHttpVersion_cases (v : Bytes) (r : HttpRequest) :
    validateHttpVersion v r = (true, r) ∨
    ∃ m c, validateHttpVersion v r = (false, r.setErrorStatus m c) := by
  unfold validateHttpVersion
  dsimp only
  split
  · exact Or.inr ⟨_, _, rfl⟩
  · split
    · exact Or.inr ⟨_, _, rfl⟩
    · exact Or.inl rfl

theorem validateHttpVersion_true {v : Bytes} {r : HttpRequest}
    (h : (validateHttpVersion v r).1 = true) :
    validateHttpVersion v r = (true, r) := by
  rcases validateHttpVersion_cases v r with h1 | ⟨m, c, h1⟩
  · exact h1
  · rw [h1] at h
    simp at h

theorem validateHttpVersion_buffer (v : Bytes) (r : HttpRequest) :
    (validateHttpVersion v r).2.buffer = r.buffer ∧
    (validateHttpVersion v r).2.parsed_buffer_offset =
      r.parsed_buffer_offset := by
  rcases validateHttpVersion_cases v r with h1 | ⟨m, c, h1⟩ <;>
    rw [h1] <;> exact ⟨rfl, rfl⟩

theorem parseRequestHeaderLine_buffer (h : Bytes) (r : HttpRequest) :
    (parseRequestHeaderLine h r).2.buffer = r.buffer ∧
    (parseRequestHeaderLine h r).2.parsed_buffer_offset =
      r.parsed_buffer_offset := by
  unfold parseRequestHeaderLine
  rcases hx : findSub h [':'] with _ | colon_pos <;> simp only [hx]
  · exact ⟨rfl, rfl⟩
  · split
    · exact ⟨rfl, rfl⟩
    · rcases hy : validateAndTrimHeaderValue (h.drop (colon_pos + 1)) with
        _ | value <;> simp only [hy]
      · exact ⟨rfl, rfl⟩
      · unfold insertHeader
        dsimp only
        cases mapLookup r.headers (lowerBytes (h.take colon_pos)) <;>
          exact ⟨rfl, rfl⟩

theorem parseHeaderLinesLoop_buffer (content : Bytes) (r : HttpRequest) :
    (parseHeaderLinesLoop content r).2.buffer = r.buffer ∧
    (parseHeaderLinesLoop content r).2.parsed_buffer_offset =
      r.parsed_buffer_offset := by
  induction content, r using parseHeaderLinesLoop.induct with
  | case1 r => unfold parseHeaderLinesLoop; simp
  | case2 content r hc end_pos header_line r1 hst =>
      unfold parseHeaderLinesLoop
      simp only [dif_neg hc]
      have hb := parseRequestHeaderLine_buffer
        (content.take ((findSub content crlf).getD content.length)) r
      rw [hst] at hb ⊢
      exact hb
  | case3 content r hc end_pos header_line fst r1 hne hst hend =>
      unfold parseHeaderLinesLoop
      simp only [dif_neg hc]
      have hb := parseRequestHeaderLine_buffer
        (content.take ((findSub content crlf).getD content.length)) r
      rw [hst] at hb ⊢
      cases fst <;>
        first
        | exact absurd rfl hne
        | (dsimp only; rw [if_pos hend]; exact hb)
  | case4 content r hc end_pos header_line fst r1 hne hst hend ih =>
      unfold parseHeaderLinesLoop
      simp only [dif_neg hc]
      have hb := parseRequestHeaderLine_buffer
        (content.take ((findSub content crlf).getD content.length)) r
      rw [hst] at hb ⊢
      cases fst <;>
        first
        | exact absurd rfl hne
        | (dsimp only; rw [if_neg hend]
           exact ⟨ih.1.trans hb.1, ih.2.trans hb.2⟩)

theorem offsetInv_of_eq {r1 r2 : HttpRequest} (hb : r1.buffer = r2.buffer)
    (ho : r1.parsed_buffer_offset = r2.parsed_buffer_offset)
    (h : offsetInv r2) : offsetInv r1 := by
  unfold offsetInv at *
  rw [hb, ho]
  exact h

theorem strView_of_eq {r1 r2 : HttpRequest} (hb : r1.buffer = r2.buffer)
    (ho : r1.parsed_buffer_offset = r2.parsed_buffer_offset) :
    r1.strView = r2.strView := by
  unfold strView
  rw [hb, ho]

theorem validateHeadersSetup_facts (r : HttpRequest) :
    (validateHeadersSetup r).2.strView = r.strView ∧
    (offsetInv r → offsetInv (validateHeadersSetup r).2) ∧
    ((validateHeadersSetup r).1 = true →
      (validateHeadersSetup r).2.state ≠ .COMPLETE) := by
  unfold validateHeadersSetup
  dsimp only
  split
  · exact ⟨rfl, fun h => h, by simp⟩
  · split
    · exact ⟨rfl, fun h => h, by simp⟩
    · split
      case h_1 p r1 heq =>
        -- step1 returned (false, r1): an unsupported Transfer-Encoding
        split at heq
        · split at heq
          · exact absurd (congrArg Prod.fst heq) (by simp)
          · injection heq with h1 h2
            subst h2
            exact ⟨rfl, fun h => h, by simp⟩
        · exact absurd (congrArg Prod.fst heq) (by simp)
      case h_2 p r1 heq =>
        -- step1 returned (true, r1)
        have hview : r1.strView = r.strView := by
          split at heq
          · split at heq
            · injection heq with h1 h2
              subst h2
              rw [strView_setParsingState]
              simp [strView_setChunkedStatus]
            · exact absurd (congrArg Prod.fst heq) (by simp)
          · injection heq with h1 h2
            subst h2
            rw [strView_setParsingState]
            simp [strView_setChunkedStatus]
        have hinv : offsetInv r → offsetInv r1 := by
          split at heq
          · split at heq
            · injection heq with h1 h2
              subst h2
              exact fun h => offsetInv_setParsingState _ _ h
            · exact absurd (congrArg Prod.fst heq) (by simp)
          · injection heq with h1 h2
            subst h2
            exact fun h => offsetInv_setParsingState _ _ h
        have hstate : r1.state ≠ .COMPLETE := by
          split at heq
          · split at heq
            · injection heq with h1 h2
              subst h2
              rw [state_setParsingState]
              simp
            · exact absurd (congrArg Prod.fst heq) (by simp)
          · injection heq with h1 h2
            subst h2
            rw [state_setParsingState]
            simp
        split
        · rcases hsd : stoullDec (r1.getHeader (strB "content-length")) with
            _ | n <;> simp only [hsd]
          · exact ⟨hview, fun h => hinv h, by simp⟩
          · exact ⟨hview, fun h => hinv h, fun _ => hstate⟩
        · exact ⟨hview, fun h => hinv h, fun _ => hstate⟩

theorem parseRequestLine_facts (r : HttpRequest) :
    (parseRequestLine r).1 ≠ .DONE ∧
    (offsetInv r → offsetInv (parseRequestLine r).2) ∧
    ((parseRequestLine r).1 = .CONTINUE →
      ∃ e, findSub r.strView crlf = some e ∧
        (parseRequestLine r).2.strView = r.strView.drop (e + 2) ∧
        (parseRequestLine r).2.state = .HEADERS) := by
  unfold parseRequestLine
  dsimp only
  rcases hf : findSub r.strView crlf with _ | e <;> simp only [hf]
  · exact ⟨by simp, fun h => h, by simp⟩
  · have hbound : e + 2 ≤ r.strView.length := by
      have := findSub_bound hf
      simpa [crlf] using this
    have hlen : (r.strView.take e).length = e := by
      simp [List.length_take]
      omega
    split
    · exact ⟨by simp, fun h => h, by simp⟩
    · rcases hm : findSub (r.strView.take e) [' '] with _ | method_end <;>
        simp only [hm]
      · exact ⟨by simp, fun h => h, by simp⟩
      · rcases ht : findSubFrom (r.strView.take e) [' '] (method_end + 1) with
          _ | target_end <;> simp only [ht]
        · exact ⟨by simp, fun h => h, by simp⟩
        · split
          · exact ⟨by simp, fun h => h, by simp⟩
          · rcases hvt : validateRequestTarget
                ((List.take e r.strView).drop (method_end + 1)
                  |>.take (target_end - (method_end + 1)))
                (r.setMethod (List.take method_end (List.take e r.strView))) with
              ⟨b1, rv1⟩
            cases b1
            · refine ⟨by simp, ?_, by simp⟩
              intro h
              have hb := validateRequestTarget_buffer
                ((List.take e r.strView).drop (method_end + 1)
                  |>.take (target_end - (method_end + 1)))
                (r.setMethod (List.take method_end (List.take e r.strView)))
              rw [hvt] at hb
              exact offsetInv_of_eq hb.1 hb.2 h
            · dsimp only
              have hrv1 : rv1 =
                  r.setMethod (List.take method_end (List.take e r.strView)) := by
                have := validateRequestTarget_true (t :=
                    (List.take e r.strView).drop (method_end + 1)
                      |>.take (target_end - (method_end + 1)))
                  (r := r.setMethod (List.take method_end (List.take e r.strView)))
                  (by rw [hvt])
                rw [hvt] at this
                exact (Prod.mk.injEq .. ▸ this).2
              rcases hvv : validateHttpVersion
                  ((List.take e r.strView).drop (target_end + 1))
                  (rv1.setRequestTarget
                    ((List.take e r.strView).drop (method_end + 1)
                      |>.take (target_end - (method_end + 1)))) with ⟨b2, rv2⟩
              cases b2
              · refine ⟨by simp, ?_, by simp⟩
                intro h
                have hb := validateHttpVersion_buffer
                  ((List.take e r.strView).drop (target_end + 1))
                  (rv1.setRequestTarget
                    ((List.take e r.strView).drop (method_end + 1)
                      |>.take (target_end - (method_end + 1))))
                rw [hvv, hrv1] at hb
                exact offsetInv_of_eq hb.1 hb.2 h
              · have hrv2 : rv2 =
                    rv1.setRequestTarget
                      ((List.take e r.strView).drop (method_end + 1)
                        |>.take (target_end - (method_end + 1))) := by
                  have := validateHttpVersion_true (v :=
                      (List.take e r.strView).drop (target_end + 1))
                    (r := rv1.setRequestTarget
                      ((List.take e r.strView).drop (method_end + 1)
                        |>.take (target_end - (method_end + 1))))
                    (by rw [hvv])
                  rw [hvv] at this
                  exact (Prod.mk.injEq .. ▸ this).2
                subst hrv2
                subst hrv1
                refine ⟨by simp, ?_, ?_⟩
                · intro h
                  apply offsetInv_setParsingState
                  apply offsetInv_commitParsedBytes
                  · rw [hlen]
                    exact hbound
                  · exact h
                · intro _
                  refine ⟨e, rfl, ?_, ?_⟩
                  · rw [strView_setParsingState, if_neg (by simp),
                      strView_commitParsedBytes, hlen]
                    rfl
                  · rw [state_setParsingState]

theorem parseRequestHeaders_facts (r : HttpRequest) :
    (parseRequestHeaders r).1 ≠ .DONE ∧
    (offsetInv r → offsetInv (parseRequestHeaders r).2) ∧
    ((parseRequestHeaders r).1 = .CONTINUE →
      ∃ e, findSub r.strView crlfcrlf = some e ∧
        (parseRequestHeaders r).2.strView = r.strView.drop (e + 4) ∧
        (parseRequestHeaders r).2.state ≠ .COMPLETE) := by
  unfold parseRequestHeaders
  dsimp only
  split
  · exact ⟨by simp, fun h => h, by simp⟩
  · rcases hm : findSub r.strView crlfcrlf with _ | e <;> simp only [hm]
    · exact ⟨by simp, fun h => h, by simp⟩
    · have hbound : e + 4 ≤ r.strView.length := by
        have := findSub_bound hm
        simpa [crlfcrlf] using this
      rcases hl : parseHeaderLinesLoop (r.strView.take e) r with ⟨st, r1⟩
      have hb := parseHeaderLinesLoop_buffer (r.strView.take e) r
      rw [hl] at hb
      have hview1 : r1.strView = r.strView := strView_of_eq hb.1 hb.2
      have hcommit : (r1.commitParsedBytes (e + 4)).strView =
          r.strView.drop (e + 4) := by
        rw [strView_commitParsedBytes, hview1]
      have hvhs := validateHeadersSetup_facts (r1.commitParsedBytes (e + 4))
      cases st
      case ERROR => exact ⟨by simp, fun h => offsetInv_of_eq hb.1 hb.2 h, by simp⟩
      all_goals {
        dsimp only
        rcases hv : validateHeadersSetup (r1.commitParsedBytes (e + 4)) with
          ⟨bv, r2⟩
        rw [hv] at hvhs
        cases bv
        · refine ⟨by simp, ?_, by simp⟩
          intro h
          apply hvhs.2.1
          apply offsetInv_commitParsedBytes
          · rw [hview1]
            exact hbound
          · exact offsetInv_of_eq hb.1 hb.2 h
        · refine ⟨by simp, ?_, ?_⟩
          · intro h
            apply hvhs.2.1
            apply offsetInv_commitParsedBytes
            · rw [hview1]
              exact hbound
            · exact offsetInv_of_eq hb.1 hb.2 h
          · intro _
            refine ⟨e, rfl, ?_, ?_⟩
            · show r2.strView = _
              rw [hvhs.1, hcommit]
            · exact hvhs.2.2 rfl
      }

theorem parseRequestBody_facts (r : HttpRequest) :
    (parseRequestBody r).1 ≠ .DONE ∧
    (offsetInv r → offsetInv (parseRequestBody r).2) ∧
    ((parseRequestBody r).1 = .CONTINUE →
      (parseRequestBody r).2.strView = [] ∧
      (parseRequestBody r).2.state = .COMPLETE) := by
  unfold parseRequestBody
  dsimp only
  split
  · exact ⟨by simp, fun h => h, by simp⟩
  · split
    · exact ⟨by simp, fun h => h, by simp⟩
    · refine ⟨by simp, ?_, ?_⟩
      · intro h
        apply offsetInv_setParsingState
        apply offsetInv_commitParsedBytes
        · exact le_refl _
        · exact h
      · intro _
        constructor
        · rw [strView_setParsingState]
          simp
        · rw [state_setParsingState]

theorem parseRequestChunkedBodySize_facts (r : HttpRequest) :
    (parseRequestChunkedBodySize r).1 ≠ .DONE ∧
    (offsetInv r → offsetInv (parseRequestChunkedBodySize r).2) ∧
    ((parseRequestChunkedBodySize r).1 = .CONTINUE →
      ∃ e, findSub r.strView crlf = some e ∧
        (parseRequestChunkedBodySize r).2.strView = r.strView.drop (e + 2) ∧
        (parseRequestChunkedBodySize r).2.state ≠ .COMPLETE) := by
  unfold parseRequestChunkedBodySize
  dsimp only
  rcases hf : findSub r.strView crlf with _ | e <;> simp only [hf]
  · exact ⟨by simp, fun h => h, by simp⟩
  · have hbound : e + 2 ≤ r.strView.length := by
      have := findSub_bound hf
      simpa [crlf] using this
    rcases hsx : stoullHex (r.strView.take e) with _ | n <;> simp only [hsx]
    · exact ⟨by simp, fun h => h, by simp⟩
    · split
      · refine ⟨by simp, ?_, ?_⟩
        · intro h
          apply offsetInv_commitParsedBytes
          · rw [strView_setParsingState, if_neg (by simp)]
            exact hbound
          · exact offsetInv_setParsingState _ _ h
        · intro _
          refine ⟨e, rfl, ?_, ?_⟩
          · rw [strView_commitParsedBytes, strView_setParsingState,
              if_neg (by simp)]
            rfl
          · show ((r.setExpectedChunkLength n).setParsingState
                .CHUNKED_BODY_DATA).state ≠ .COMPLETE
            rw [state_setParsingState]
            simp
      · refine ⟨by simp, ?_, ?_⟩
        · intro h
          apply offsetInv_commitParsedBytes
          · rw [strView_setParsingState, if_neg (by simp)]
            exact hbound
          · exact offsetInv_setParsingState _ _ h
        · intro _
          refine ⟨e, rfl, ?_, ?_⟩
          · rw [strView_commitParsedBytes, strView_setParsingState,
              if_neg (by simp)]
            rfl
          · show ((r.setExpectedChunkLength n).setParsingState
                .CHUNKED_BODY_TRAILER).state ≠ .COMPLETE
            rw [state_setParsingState]
            simp

theorem parseRequestChunkedBodyData_facts (r : HttpRequest) :
    (parseRequestChunkedBodyData r).1 ≠ .DONE ∧
    (offsetInv r → offsetInv (parseRequestChunkedBodyData r).2) ∧
    ((parseRequestChunkedBodyData r).1 = .CONTINUE →
      ∃ e, findSub r.strView crlf = some e ∧
        (parseRequestChunkedBodyData r).2.strView = r.strView.drop (e + 2) ∧
        (parseRequestChunkedBodyData r).2.state ≠ .COMPLETE) := by
  unfold parseRequestChunkedBodyData
  dsimp only
  rcases hf : findSub r.strView crlf with _ | e <;> simp only [hf]
  · exact ⟨by simp, fun h => h, by simp⟩
  · have hbound : e + 2 ≤ r.strView.length := by
      have := findSub_bound hf
      simpa [crlf] using this
    split
    · exact ⟨by simp, fun h => h, by simp⟩
    · refine ⟨by simp, ?_, ?_⟩
      · intro h
        apply offsetInv_setParsingState
        show offsetInv ((r.commitParsedBytes (e + 2)).appendBody _)
        have hin : offsetInv (r.commitParsedBytes (e + 2)) :=
          offsetInv_commitParsedBytes _ _ hbound h
        exact hin
      · intro _
        refine ⟨e, rfl, ?_, ?_⟩
        · rw [strView_setParsingState, if_neg (by simp), strView_appendBody,
            strView_commitParsedBytes]
        · rw [state_setParsingState]
          simp

theorem parseRequestChunkedBodyTrailer_facts (r : HttpRequest) :
    (parseRequestChunkedBodyTrailer r).1 ≠ .DONE ∧
    (offsetInv r → offsetInv (parseRequestChunkedBodyTrailer r).2) ∧
    ((parseRequestChunkedBodyTrailer r).1 = .CONTINUE →
      (parseRequestChunkedBodyTrailer r).2.strView = [] ∧
      (parseRequestChunkedBodyTrailer r).2.state = .COMPLETE) := by
  unfold parseRequestChunkedBodyTrailer
  dsimp only
  rcases hf : findSub r.strView crlf with _ | e <;> simp only [hf]
  · exact ⟨by simp, fun h => h, by simp⟩
  · split
    · exact ⟨by simp, fun h => h, by simp⟩
    · refine ⟨by simp, ?_, ?_⟩
      · intro h
        apply offsetInv_setParsingState
        apply offsetInv_eraseParsedBuffer
        apply offsetInv_commitParsedBytes
        · have := findSub_bound hf
          simpa [crlf] using this
        · exact h
      · intro _
        constructor
        · rw [strView_setParsingState]
          simp
        · rw [state_setParsingState]

/-- Termination measure for the `while (true)` loop of
`HttpRequestParser::parseRequest`. -/
def parseMeasure (r : HttpRequest) : Nat :=
  2 * r.strView.length + (if r.state = .COMPLETE then 0 else 1)

theorem parseStep_facts (r : HttpRequest) (hs : r.state ≠ .COMPLETE) :
    (parseStep r).1 ≠ .DONE ∧
    (offsetInv r → offsetInv (parseStep r).2) ∧
    ((parseStep r).1 = .CONTINUE → parseMeasure (parseStep r).2 < parseMeasure r) := by
  have measure_of_drop :
      ∀ (rr : HttpRequest) (e k : Nat), 0 < k → e + k ≤ r.strView.length →
        rr.strView = r.strView.drop (e + k) → rr.state ≠ .COMPLETE →
        parseMeasure rr < parseMeasure r := by
    intro rr e k hk hbound hview hstate
    unfold parseMeasure
    rw [hview, if_neg hstate, if_neg hs]
    simp only [List.length_drop]
    omega
  have measure_of_complete :
      ∀ (rr : HttpRequest), rr.strView = [] → rr.state = .COMPLETE →
        parseMeasure rr < parseMeasure r := by
    intro rr hview hstate
    unfold parseMeasure
    rw [hview, if_pos hstate, if_neg hs]
    simp
  unfold parseStep
  cases hst : r.state
  case COMPLETE => exact absurd hst hs
  case REQUEST_LINE =>
    obtain ⟨h1, h2, h3⟩ := parseRequestLine_facts r
    refine ⟨h1, h2, ?_⟩
    intro hcont
    obtain ⟨e, he, hview, hstate⟩ := h3 hcont
    exact measure_of_drop _ e 2 (by omega) (by
      have := findSub_bound he
      simpa [crlf] using this) hview (by rw [hstate]; simp)
  case HEADERS =>
    obtain ⟨h1, h2, h3⟩ := parseRequestHeaders_facts r
    refine ⟨h1, h2, ?_⟩
    intro hcont
    obtain ⟨e, he, hview, hstate⟩ := h3 hcont
    exact measure_of_drop _ e 4 (by omega) (by
      have := findSub_bound he
      simpa [crlfcrlf] using this) hview hstate
  case BODY =>
    obtain ⟨h1, h2, h3⟩ := parseRequestBody_facts r
    refine ⟨h1, h2, ?_⟩
    intro hcont
    obtain ⟨hview, hstate⟩ := h3 hcont
    exact measure_of_complete _ hview hstate
  case CHUNKED_BODY_SIZE =>
    obtain ⟨h1, h2, h3⟩ := parseRequestChunkedBodySize_facts r
    refine ⟨h1, h2, ?_⟩
    intro hcont
    obtain ⟨e, he, hview, hstate⟩ := h3 hcont
    exact measure_of_drop _ e 2 (by omega) (by
      have := findSub_bound he
      simpa [crlf] using this) hview hstate
  case CHUNKED_BODY_DATA =>
    obtain ⟨h1, h2, h3⟩ := parseRequestChunkedBodyData_facts r
    refine ⟨h1, h2, ?_⟩
    intro hcont
    obtain ⟨e, he, hview, hstate⟩ := h3 hcont
    exact measure_of_drop _ e 2 (by omega) (by
      have := findSub_bound he
      simpa [crlf] using this) hview hstate
  case CHUNKED_BODY_TRAILER =>
    obtain ⟨h1, h2, h3⟩ := parseRequestChunkedBodyTrailer_facts r
    refine ⟨h1, h2, ?_⟩
    intro hcont
    obtain ⟨hview, hstate⟩ := h3 hcont
    exact measure_of_complete _ hview hstate

/-- The `while (true)` dispatch loop of `HttpRequestParser::parseRequest`:
run `parseStep` until it stops returning `CONTINUE`; in state `COMPLETE`
return `DONE`. -/
def parseLoop (r : HttpRequest) : ParserStatus × HttpRequest :=
  if h : r.state = .COMPLETE then (.DONE, r)
  else
    if hc : (parseStep r).1 = .CONTINUE then parseLoop (parseStep r).2
    else parseStep r
termination_by parseMeasure r
decreasing_by
  exact (parseStep_facts r h).2.2 hc

/-- `HttpRequestParser::parseRequest`. -/
def parseRequest (data : Bytes) (r : HttpRequest) : ParserStatus × HttpRequest :=
  if data.isEmpty then (.WAIT_FOR_DATA, r)
  else parseLoop (r.appendBuffer data)

theorem parseLoop_complete {r : HttpRequest} (h : r.state = .COMPLETE) :
    parseLoop r = (.DONE, r) := by
  rw [parseLoop]
  simp [h]

theorem parseLoop_step {r : HttpRequest} (h : r.state ≠ .COMPLETE)
    (hc : (parseStep r).1 = .CONTINUE) :
    parseLoop r = parseLoop (parseStep r).2 := by
  rw [parseLoop]
  simp [h, hc]

theorem parseLoop_exit {r : HttpRequest} (h : r.state ≠ .COMPLETE)
    (hc : (parseStep r).1 ≠ .CONTINUE) :
    parseLoop r = parseStep r := by
  rw [parseLoop]
  simp [h, hc]

theorem parseLoop_inv (r : HttpRequest) (h : offsetInv r) :
    offsetInv (parseLoop r).2 := by
  by_cases hs : r.state = .COMPLETE
  · rw [parseLoop_complete hs]
    exact h
  · by_cases hc : (parseStep r).1 = .CONTINUE
    · rw [parseLoop_step hs hc]
      exact parseLoop_inv _ ((parseStep_facts r hs).2.1 h)
    · rw [parseLoop_exit hs hc]
      exact (parseStep_facts r hs).2.1 h
termination_by parseMeasure r
decreasing_by
  exact (parseStep_facts r hs).2.2 hc

theorem parseLoop_done_state {r R : HttpRequest}
    (h : parseLoop r = (.DONE, R)) : R.state = .COMPLETE := by
  by_cases hs : r.state = .COMPLETE
  · rw [parseLoop_complete hs] at h
    injection h with h1 h2
    subst h2
    exact hs
  · by_cases hc : (parseStep r).1 = .CONTINUE
    · rw [parseLoop_step hs hc] at h
      exact parseLoop_done_state h
    · rw [parseLoop_exit hs hc] at h
      have := (parseStep_facts r hs).1
      rw [h] at this
      simp at this
termination_by parseMeasure r
decreasing_by
  exact (parseStep_facts r hs).2.2 hc

/-! ## Congruence: parser steps depend only on `core` and `strView` -/

namespace HttpRequest

theorem headers_of_core {r1 r2 : HttpRequest} (hc : core r1 = core r2) :
    r1.headers = r2.headers := congrArg CoreState.headers hc

theorem hasHeader_congr {r1 r2 : HttpRequest} (hc : core r1 = core r2)
    (n : Bytes) : r1.hasHeader n = r2.hasHeader n := by
  unfold hasHeader
  rw [headers_of_core hc]

theorem getHeader_congr {r1 r2 : HttpRequest} (hc : core r1 = core r2)
    (n : Bytes) : r1.getHeader n = r2.getHeader n := by
  unfold getHeader
  rw [headers_of_core hc]

theorem core_setMethod_congr {r1 r2 : HttpRequest} (hc : core r1 = core r2)
    (m : Bytes) : core (r1.setMethod m) = core (r2.setMethod m) := by
  simp only [core, CoreState.mk.injEq] at hc ⊢
  unfold setMethod
  simp_all

theorem core_setRequestTarget_congr {r1 r2 : HttpRequest}
    (hc : core r1 = core r2) (t : Bytes) :
    core (r1.setRequestTarget t) = core (r2.setRequestTarget t) := by
  simp only [core, CoreState.mk.injEq] at hc ⊢
  unfold setRequestTarget
  simp_all

theorem core_setHttpVersion_congr {r1 r2 : HttpRequest}
    (hc : core r1 = core r2) (v : Bytes) :
    core (r1.setHttpVersion v) = core (r2.setHttpVersion v) := by
  simp only [core, CoreState.mk.injEq] at hc ⊢
  unfold setHttpVersion
  simp_all

theorem core_setBody_congr {r1 r2 : HttpRequest} (hc : core r1 = core r2)
    (b : Bytes) : core (r1.setBody b) = core (r2.setBody b) := by
  simp only [core, CoreState.mk.injEq] at hc ⊢
  unfold setBody
  simp_all

theorem core_setBodyLength_congr {r1 r2 : HttpRequest} (hc : core r1 = core r2)
    (n : Nat) : core (r1.setBodyLength n) = core (r2.setBodyLength n) := by
  simp only [core, CoreState.mk.injEq] at hc ⊢
  unfold setBodyLength
  simp_all

theorem core_setChunkedStatus_congr {r1 r2 : HttpRequest}
    (hc : core r1 = core r2) (b : Bool) :
    core (r1.setChunkedStatus b) = core (r2.setChunkedStatus b) := by
  simp only [core, CoreState.mk.injEq] at hc ⊢
  unfold setChunkedStatus
  simp_all

theorem core_setExpectedChunkLength_congr {r1 r2 : HttpRequest}
    (hc : core r1 = core r2) (n : Nat) :
    core (r1.setExpectedChunkLength n) = core (r2.setExpectedChunkLength n) := by
  simp only [core, CoreState.mk.injEq] at hc ⊢
  unfold setExpectedChunkLength
  simp_all

theorem core_appendBody_congr {r1 r2 : HttpRequest} (hc : core r1 = core r2)
    (d : Bytes) : core (r1.appendBody d) = core (r2.appendBody d) := by
  simp only [core, CoreState.mk.injEq] at hc ⊢
  unfold appendBody
  simp_all

theorem core_setErrorStatus_congr {r1 r2 : HttpRequest} (hc : core r1 = core r2)
    (m : Bytes) (c : Nat) :
    core (r1.setErrorStatus m c) = core (r2.setErrorStatus m c) := by
  simp only [core, CoreState.mk.injEq] at hc ⊢
  unfold setErrorStatus
  simp_all

theorem core_insertHeader_congr {r1 r2 : HttpRequest} (hc : core r1 = core r2)
    (k v : Bytes) : core (r1.insertHeader k v) = core (r2.insertHeader k v) := by
  unfold insertHeader
  dsimp only
  rw [headers_of_core hc]
  cases mapLookup r2.headers (lowerBytes k) <;>
    · simp only [core, CoreState.mk.injEq] at hc ⊢
      simp_all

theorem core_setParsingState_congr {r1 r2 : HttpRequest}
    (hc : core r1 = core r2) (st : HttpParsingState) :
    core (r1.setParsingState st) = core (r2.setParsingState st) := by
  rw [core_setParsingState, core_setParsingState, hc]

end HttpRequest

theorem validateRequestTarget_char (t : Bytes) :
    (∀ r, validateRequestTarget t r = (true, r)) ∨
    (∃ m c, ∀ r, validateRequestTarget t r = (false, r.setErrorStatus m c)) := by
  by_cases h1 : MAX_REQUEST_TARGET_LENGTH < (lowerBytes t).length
  · refine Or.inr ⟨strB "Request target too long: " ++ t, 400, fun r => ?_⟩
    unfold validateRequestTarget
    dsimp only
    rw [if_pos h1]
  · rcases hx : (lowerBytes t).find? forbiddenTargetChar with _ | ch
    · rcases hy : findSub (lowerBytes t) (strB "://") with _ | se
      · by_cases h2 : (lowerBytes t).headD (Char.ofNat 0) ≠ '/'
        · refine Or.inr
            ⟨strB "Request target without scheme should start with /", 400,
              fun r => ?_⟩
          unfold validateRequestTarget
          dsimp only
          rw [if_neg h1]
          simp only [hx, hy]
          rw [if_pos h2]
        · refine Or.inl fun r => ?_
          unfold validateRequestTarget
          dsimp only
          rw [if_neg h1]
          simp only [hx, hy]
          rw [if_neg h2]
      · by_cases h2 : (lowerBytes t).take se ≠ strB "http" ∧
            (lowerBytes t).take se ≠ strB "https"
        · refine Or.inr
            ⟨strB "Only http/https schemes allowed: " ++ (lowerBytes t).take se,
              400, fun r => ?_⟩
          unfold validateRequestTarget
          dsimp only
          rw [if_neg h1]
          simp only [hx, hy]
          rw [if_pos h2]
        · refine Or.inl fun r => ?_
          unfold validateRequestTarget
          dsimp only
          rw [if_neg h1]
          simp only [hx, hy]
          rw [if_neg h2]
    · refine Or.inr
        ⟨strB "Request target contains forbidden character: " ++ [ch], 400,
          fun r => ?_⟩
      unfold validateRequestTarget
      dsimp only
      rw [if_neg h1]
      simp only [hx]

theorem validateHttpVersion_char (v : Bytes) :
    (∀ r, validateHttpVersion v r = (true, r)) ∨
    (∃ m c, ∀ r, validateHttpVersion v r = (false, r.setErrorStatus m c)) := by
  by_cases h1 : matchGeneralVersion v = true ∧ ¬ matchSupportedVersion v = true
  · refine Or.inr
      ⟨strB "Valid format but unsupported HTTP version: " ++ v, 505,
        fun r => ?_⟩
    unfold validateHttpVersion
    dsimp only
    rw [if_pos h1]
  · by_cases h2 : ¬ matchGeneralVersion v = true
    · refine Or.inr ⟨strB "Invalid HTTP version format: " ++ v, 400, fun r => ?_⟩
      unfold validateHttpVersion
      dsimp only
      rw [if_neg h1, if_pos h2]
    · refine Or.inl fun r => ?_
      unfold validateHttpVersion
      dsimp only
      rw [if_neg h1, if_neg h2]

theorem parseRequestHeaderLine_congr {r1 r2 : HttpRequest}
    (hc : core r1 = core r2) (h : Bytes) :
    (parseRequestHeaderLine h r1).1 = (parseRequestHeaderLine h r2).1 ∧
    core (parseRequestHeaderLine h r1).2 = core (parseRequestHeaderLine h r2).2 := by
  unfold parseRequestHeaderLine
  rcases hx : findSub h [':'] with _ | colon_pos <;> simp only [hx]
  · exact ⟨by simp, HttpRequest.core_setErrorStatus_congr hc _ _⟩
  · split
    · exact ⟨by simp, HttpRequest.core_setErrorStatus_congr hc _ _⟩
    · rcases hy : validateAndTrimHeaderValue (h.drop (colon_pos + 1)) with
        _ | value <;> simp only [hy]
      · exact ⟨by simp, HttpRequest.core_setErrorStatus_congr hc _ _⟩
      · exact ⟨by simp, HttpRequest.core_insertHeader_congr hc _ _⟩

theorem parseHeaderLinesLoop_congr (content : Bytes) :
    ∀ {r1 r2 : HttpRequest}, core r1 = core r2 →
    (parseHeaderLinesLoop content r1).1 = (parseHeaderLinesLoop content r2).1 ∧
    core (parseHeaderLinesLoop content r1).2 =
      core (parseHeaderLinesLoop content r2).2 := by
  intro r1 r2 hc
  by_cases hcl : content = []
  · subst hcl
    unfold parseHeaderLinesLoop
    exact ⟨rfl, hc⟩
  · unfold parseHeaderLinesLoop
    simp only [dif_neg hcl]
    have hline := parseRequestHeaderLine_congr hc
      (content.take ((findSub content crlf).getD content.length))
    rcases hp1 : parseRequestHeaderLine
        (content.take ((findSub content crlf).getD content.length)) r1 with
      ⟨s1, q1⟩
    rcases hp2 : parseRequestHeaderLine
        (content.take ((findSub content crlf).getD content.length)) r2 with
      ⟨s2, q2⟩
    rw [hp1, hp2] at hline
    obtain ⟨hs, hq⟩ := hline
    dsimp only at hs hq
    subst hs
    cases s1 with
    | ERROR => exact ⟨by simp, hq⟩
    | WAIT_FOR_DATA =>
        dsimp only
        split
        · exact ⟨by simp, hq⟩
        · exact parseHeaderLinesLoop_congr _ hq
    | CONTINUE =>
        dsimp only
        split
        · exact ⟨by simp, hq⟩
        · exact parseHeaderLinesLoop_congr _ hq
    | DONE =>
        dsimp only
        split
        · exact ⟨by simp, hq⟩
        · exact parseHeaderLinesLoop_congr _ hq
termination_by content.length
decreasing_by
  all_goals {
    simp only [List.length_drop]
    have h0 : 0 < content.length := List.length_pos.mpr hcl
    omega
  }

theorem validateHeadersSetup_congr {r1 r2 : HttpRequest}
    (hc : core r1 = core r2) :
    (validateHeadersSetup r1).1 = (validateHeadersSetup r2).1 ∧
    core (validateHeadersSetup r1).2 = core (validateHeadersSetup r2).2 := by
  have hcs : core ((r1.setChunkedStatus true).setParsingState
        .CHUNKED_BODY_SIZE) =
      core ((r2.setChunkedStatus true).setParsingState .CHUNKED_BODY_SIZE) :=
    HttpRequest.core_setParsingState_congr
      (HttpRequest.core_setChunkedStatus_congr hc true) _
  have hbody : core (r1.setParsingState .BODY) =
      core (r2.setParsingState .BODY) :=
    HttpRequest.core_setParsingState_congr hc _
  unfold validateHeadersSetup
  dsimp only
  rw [HttpRequest.hasHeader_congr hc (strB "Host"),
      HttpRequest.hasHeader_congr hc (strB "Transfer-Encoding"),
      HttpRequest.hasHeader_congr hc (strB "Content-Length"),
      HttpRequest.getHeader_congr hc (strB "Transfer-Encoding")]
  split
  · exact ⟨by simp, HttpRequest.core_setErrorStatus_congr hc _ _⟩
  · split
    · exact ⟨by simp, HttpRequest.core_setErrorStatus_congr hc _ _⟩
    · by_cases hTE : r2.hasHeader (strB "Transfer-Encoding") = true
      · rw [if_pos hTE, if_pos hTE]
        by_cases hch : (findSub (lowerBytes (r2.getHeader
            (strB "Transfer-Encoding"))) (strB "chunked")).isSome = true
        · rw [if_pos hch, if_pos hch]
          dsimp only
          rw [HttpRequest.hasHeader_congr hcs (strB "Content-Length"),
              HttpRequest.getHeader_congr hcs (strB "content-length")]
          split
          · rcases hsd : stoullDec (((r2.setChunkedStatus true).setParsingState
                .CHUNKED_BODY_SIZE).getHeader (strB "content-length")) with
              _ | n <;> simp only [hsd]
            · exact ⟨by simp, HttpRequest.core_setErrorStatus_congr hcs _ _⟩
            · exact ⟨by simp, HttpRequest.core_setBodyLength_congr hcs n⟩
          · exact ⟨by simp, hcs⟩
        · rw [if_neg hch, if_neg hch]
          dsimp only
          exact ⟨by simp, HttpRequest.core_setErrorStatus_congr hc _ _⟩
      · rw [if_neg hTE, if_neg hTE]
        dsimp only
        rw [HttpRequest.hasHeader_congr hbody (strB "Content-Length"),
            HttpRequest.getHeader_congr hbody (strB "content-length")]
        split
        · rcases hsd : stoullDec ((r2.setParsingState
              .BODY).getHeader (strB "content-length")) with _ | n <;>
            simp only [hsd]
          · exact ⟨by simp, HttpRequest.core_setErrorStatus_congr hbody _ _⟩
          · exact ⟨by simp, HttpRequest.core_setBodyLength_congr hbody n⟩
        · exact ⟨by simp, hbody⟩

theorem findSub_none_of_short {hay pat : Bytes}
    (h : hay.length < pat.length) : findSub hay pat = none := by
  cases hf : findSub hay pat with
  | none => rfl
  | some i => exact absurd (findSub_bound hf) (by omega)

theorem take_append_left {v w : Bytes} {e : Nat} (h : e ≤ v.length) :
    (v ++ w).take e = v.take e := by
  rw [List.take_append_eq_append_take]
  have : e - v.length = 0 := by omega
  simp [this]

/-- Sync relation for an incremental run: the short side `ra` has `w` bytes
still pending that the extended side `rb` already holds. -/
def syncPair (ra rb : HttpRequest) (w : Bytes) : Prop :=
  core ra = core rb ∧ rb.strView = ra.strView ++ w

theorem parseRequestBody_sync {r1 r2 : HttpRequest} {w : Bytes}
    (hc : core r1 = core r2) (hv : r2.strView = r1.strView ++ w)
    (h2 : (parseRequestBody r2).1 = .CONTINUE) :
    (parseRequestBody r1 = (.WAIT_FOR_DATA, r1) ∧ w ≠ []) ∨
    ((parseRequestBody r1).1 = .CONTINUE ∧
     core (parseRequestBody r1).2 = core (parseRequestBody r2).2 ∧
     (parseRequestBody r2).2.strView = (parseRequestBody r1).2.strView ++ w) := by
  have hbl : r1.body_length = r2.body_length :=
    congrArg CoreState.body_length hc
  have hlen : r2.strView.length = r1.strView.length + w.length := by
    rw [hv]
    simp
  unfold parseRequestBody at h2 ⊢
  dsimp only at h2 ⊢
  split at h2
  · simp at h2
  · split at h2
    · simp at h2
    · rename_i hgt2 hne2
      have hbl2 : r2.body_length = r2.strView.length := not_ne_iff.mp hne2
      by_cases hgt1 : r1.body_length > r1.strView.length
      · refine Or.inl ⟨?_, ?_⟩
        · rw [if_pos hgt1]
        · have : 0 < w.length := by omega
          exact fun hw => by simp [hw] at this
      · have hwnil : w = [] :=
          List.eq_nil_of_length_eq_zero (by omega)
        subst hwnil
        have hv' : r2.strView = r1.strView := by simpa using hv
        have heq1 : r1.body_length = r1.strView.length := by omega
        rw [if_neg hgt1, if_neg hgt2, if_neg (not_ne_iff.mpr heq1),
          if_neg hne2]
        refine Or.inr ⟨by simp, ?_, ?_⟩
        · apply HttpRequest.core_setParsingState_congr
          rw [core_commitParsedBytes, core_commitParsedBytes]
          rw [hv']
          exact HttpRequest.core_setBody_congr hc _
        · rw [strView_setParsingState, strView_setParsingState]
          simp

theorem parseRequestChunkedBodySize_sync {r1 r2 : HttpRequest} {w : Bytes}
    (hc : core r1 = core r2) (hv : r2.strView = r1.strView ++ w)
    (h2 : (parseRequestChunkedBodySize r2).1 = .CONTINUE) :
    (parseRequestChunkedBodySize r1 = (.WAIT_FOR_DATA, r1) ∧ w ≠ []) ∨
    ((parseRequestChunkedBodySize r1).1 = .CONTINUE ∧
     core (parseRequestChunkedBodySize r1).2 =
       core (parseRequestChunkedBodySize r2).2 ∧
     (parseRequestChunkedBodySize r2).2.strView =
       (parseRequestChunkedBodySize r1).2.strView ++ w) := by
  unfold parseRequestChunkedBodySize at h2 ⊢
  dsimp only at h2 ⊢
  rcases hf2 : findSub r2.strView crlf with _ | e <;> simp only [hf2] at h2
  · simp at h2
  · rcases hf1 : findSub r1.strView crlf with _ | e1 <;> simp only [hf1]
    · refine Or.inl ⟨by simp, ?_⟩
      intro hw
      subst hw
      rw [(by simpa using hv : r2.strView = r1.strView)] at hf2
      rw [hf1] at hf2
      simp at hf2
    · have he : e1 = e := by
        have := findSub_append (w := w) hf1
        rw [← hv] at this
        rw [hf2] at this
        simp at this
        omega
      subst he
      have hbound : e1 + 2 ≤ r1.strView.length := by
        have := findSub_bound hf1
        simpa [crlf] using this
      have htk : r2.strView.take e1 = r1.strView.take e1 := by
        rw [hv]
        exact take_append_left (by omega)
      rw [htk] at h2 ⊢
      rcases hsx : stoullHex (r1.strView.take e1) with _ | n <;>
        simp only [hsx] at h2 ⊢
      · simp at h2
      · have hexp : (r1.setExpectedChunkLength n).expected_chunk_length =
            (r2.setExpectedChunkLength n).expected_chunk_length := rfl
        split <;> split
        case isTrue.isTrue =>
          refine Or.inr ⟨by simp, ?_, ?_⟩
          · rw [core_commitParsedBytes, core_commitParsedBytes]
            apply HttpRequest.core_setParsingState_congr
            exact HttpRequest.core_setExpectedChunkLength_congr hc n
          · rw [strView_commitParsedBytes, strView_commitParsedBytes,
              strView_setParsingState, strView_setParsingState,
              if_neg (by simp), if_neg (by simp), strView_setExpectedChunkLength,
              strView_setExpectedChunkLength, hv,
              List.drop_append_of_le_length (by omega)]
        case isFalse.isFalse =>
          refine Or.inr ⟨by simp, ?_, ?_⟩
          · rw [core_commitParsedBytes, core_commitParsedBytes]
            apply HttpRequest.core_setParsingState_congr
            exact HttpRequest.core_setExpectedChunkLength_congr hc n
          · rw [strView_commitParsedBytes, strView_commitParsedBytes,
              strView_setParsingState, strView_setParsingState,
              if_neg (by simp), if_neg (by simp), strView_setExpectedChunkLength,
              strView_setExpectedChunkLength, hv,
              List.drop_append_of_le_length (by omega)]
        case isTrue.isFalse => simp_all
        case isFalse.isTrue => simp_all

theorem parseRequestChunkedBodyData_sync {r1 r2 : HttpRequest} {w : Bytes}
    (hc : core r1 = core r2) (hv : r2.strView = r1.strView ++ w)
    (h2 : (parseRequestChunkedBodyData r2).1 = .CONTINUE) :
    (parseRequestChunkedBodyData r1 = (.WAIT_FOR_DATA, r1) ∧ w ≠ []) ∨
    ((parseRequestChunkedBodyData r1).1 = .CONTINUE ∧
     core (parseRequestChunkedBodyData r1).2 =
       core (parseRequestChunkedBodyData r2).2 ∧
     (parseRequestChunkedBodyData r2).2.strView =
       (parseRequestChunkedBodyData r1).2.strView ++ w) := by
  have hexp : r1.expected_chunk_length = r2.expected_chunk_length :=
    congrArg CoreState.expected_chunk_length hc
  unfold parseRequestChunkedBodyData at h2 ⊢
  dsimp only at h2 ⊢
  rcases hf2 : findSub r2.strView crlf with _ | e <;> simp only [hf2] at h2
  · simp at h2
  · rcases hf1 : findSub r1.strView crlf with _ | e1 <;> simp only [hf1]
    · refine Or.inl ⟨by simp, ?_⟩
      intro hw
      subst hw
      rw [(by simpa using hv : r2.strView = r1.strView)] at hf2
      rw [hf1] at hf2
      simp at hf2
    · have he : e1 = e := by
        have := findSub_append (w := w) hf1
        rw [← hv] at this
        rw [hf2] at this
        simp at this
        omega
      subst he
      have hbound : e1 + 2 ≤ r1.strView.length := by
        have := findSub_bound hf1
        simpa [crlf] using this
      have htk : r2.strView.take e1 = r1.strView.take e1 := by
        rw [hv]
        exact take_append_left (by omega)
      rw [htk] at h2 ⊢
      rw [hexp]
      split at h2
      · simp at h2
      · rename_i hlen2
        rw [if_neg hlen2, if_neg hlen2]
        refine Or.inr ⟨by simp, ?_, ?_⟩
        · apply HttpRequest.core_setParsingState_congr
          apply HttpRequest.core_appendBody_congr
          rw [core_commitParsedBytes, core_commitParsedBytes]
          exact hc
        · rw [strView_setParsingState, strView_setParsingState,
            if_neg (by simp), if_neg (by simp), strView_appendBody,
            strView_appendBody, strView_commitParsedBytes,
            strView_commitParsedBytes, hv,
            List.drop_append_of_le_length (by omega)]

theorem parseRequestChunkedBodyTrailer_sync {r1 r2 : HttpRequest} {w : Bytes}
    (hc : core r1 = core r2) (hv : r2.strView = r1.strView ++ w)
    (h2 : (parseRequestChunkedBodyTrailer r2).1 = .CONTINUE) :
    (parseRequestChunkedBodyTrailer r1 = (.WAIT_FOR_DATA, r1) ∧ w ≠ []) ∨
    ((parseRequestChunkedBodyTrailer r1).1 = .CONTINUE ∧
     core (parseRequestChunkedBodyTrailer r1).2 =
       core (parseRequestChunkedBodyTrailer r2).2 ∧
     (parseRequestChunkedBodyTrailer r2).2.strView =
       (parseRequestChunkedBodyTrailer r1).2.strView ++ w) := by
  unfold parseRequestChunkedBodyTrailer at h2 ⊢
  dsimp only at h2 ⊢
  rcases hf2 : findSub r2.strView crlf with _ | e <;> simp only [hf2] at h2
  · simp at h2
  · split at h2
    · simp at h2
    · rename_i hcond
      push_neg at hcond
      obtain ⟨he0, hlen2⟩ := hcond
      subst he0
      have hlen : r2.strView.length = r1.strView.length + w.length := by
        rw [hv]
        simp
      by_cases hshort : r1.strView.length < 2
      · refine Or.inl ⟨?_, ?_⟩
        · rw [findSub_none_of_short (by simp [crlf]; omega)]
        · have : 0 < w.length := by omega
          exact fun hw => by simp [hw] at this
      · have hw : w = [] := List.eq_nil_of_length_eq_zero (by omega)
        subst hw
        have hv' : r2.strView = r1.strView := by simpa using hv
        rw [hv'] at hf2 hlen2
        rw [hf2]
        dsimp only
        rw [if_neg (by push_neg; exact ⟨rfl, hlen2⟩),
          if_neg (by push_neg; exact ⟨rfl, by rw [hv']; exact hlen2⟩)]
        refine Or.inr ⟨by simp, ?_, ?_⟩
        · apply HttpRequest.core_setParsingState_congr
          rw [core_eraseParsedBuffer, core_eraseParsedBuffer,
            core_commitParsedBytes, core_commitParsedBytes]
          exact hc
        · rw [strView_setParsingState, strView_setParsingState]
          simp

theorem parseRequestHeaders_sync {r1 r2 : HttpRequest} {w : Bytes}
    (hc : core r1 = core r2) (hv : r2.strView = r1.strView ++ w)
    (h2 : (parseRequestHeaders r2).1 = .CONTINUE) :
    (parseRequestHeaders r1 = (.WAIT_FOR_DATA, r1) ∧ w ≠ []) ∨
    ((parseRequestHeaders r1).1 = .CONTINUE ∧
     core (parseRequestHeaders r1).2 = core (parseRequestHeaders r2).2 ∧
     (parseRequestHeaders r2).2.strView =
       (parseRequestHeaders r1).2.strView ++ w) := by
  unfold parseRequestHeaders at h2 ⊢
  dsimp only at h2 ⊢
  split at h2
  · simp at h2
  · rename_i hz2
    have hz1 : ¬ findSub r1.strView crlf = some 0 := by
      intro hcon
      exact hz2 (by rw [hv]; exact findSub_append hcon)
    rw [if_neg hz1, if_neg hz2]
    rcases hm2 : findSub r2.strView crlfcrlf with _ | h4 <;>
      simp only [hm2] at h2
    · simp at h2
    · rcases hm1 : findSub r1.strView crlfcrlf with _ | h4' <;> simp only [hm1]
      · refine Or.inl ⟨by simp, ?_⟩
        intro hw
        subst hw
        rw [(by simpa using hv : r2.strView = r1.strView)] at hm2
        rw [hm1] at hm2
        simp at hm2
      · have he : h4' = h4 := by
          have hx := findSub_append (w := w) hm1
          rw [← hv] at hx
          rw [hm2] at hx
          simp at hx
          omega
        subst he
        have hbound : h4' + 4 ≤ r1.strView.length := by
          have := findSub_bound hm1
          simpa [crlfcrlf] using this
        have htk : r2.strView.take h4' = r1.strView.take h4' := by
          rw [hv]
          exact take_append_left (by omega)
        rw [htk] at h2 ⊢
        have hloop := parseHeaderLinesLoop_congr (r1.strView.take h4') hc
        rcases hl1 : parseHeaderLinesLoop (r1.strView.take h4') r1 with ⟨s1, q1⟩
        rcases hl2 : parseHeaderLinesLoop (r1.strView.take h4') r2 with ⟨s2, q2⟩
        rw [hl1, hl2] at hloop
        obtain ⟨hs, hq⟩ := hloop
        dsimp only at hs hq
        subst hs
        rw [hl2] at h2
        have hqb1 := parseHeaderLinesLoop_buffer (r1.strView.take h4') r1
        have hqb2 := parseHeaderLinesLoop_buffer (r1.strView.take h4') r2
        rw [hl1] at hqb1
        rw [hl2] at hqb2
        have hq1v : q1.strView = r1.strView := strView_of_eq hqb1.1 hqb1.2
        have hq2v : q2.strView = r2.strView := strView_of_eq hqb2.1 hqb2.2
        cases s1 with
        | ERROR => simp at h2
        | WAIT_FOR_DATA =>
            dsimp only at h2 ⊢
            have hcq : core (q1.commitParsedBytes (h4' + 4)) =
                core (q2.commitParsedBytes (h4' + 4)) := by
              rw [core_commitParsedBytes, core_commitParsedBytes]
              exact hq
            have hvs := validateHeadersSetup_congr hcq
            have hfacts1 :=
              validateHeadersSetup_facts (q1.commitParsedBytes (h4' + 4))
            have hfacts2 :=
              validateHeadersSetup_facts (q2.commitParsedBytes (h4' + 4))
            rcases hv1 : validateHeadersSetup (q1.commitParsedBytes (h4' + 4))
              with ⟨b1, p1⟩
            rcases hv2 : validateHeadersSetup (q2.commitParsedBytes (h4' + 4))
              with ⟨b2, p2⟩
            rw [hv1, hv2] at hvs
            rw [hv1] at hfacts1
            rw [hv2] at hfacts2
            rw [hv2] at h2
            obtain ⟨hb, hp⟩ := hvs
            dsimp only at hb hp
            subst hb
            cases b1
            · simp at h2
            · refine Or.inr ⟨by simp, by exact hp, ?_⟩
              show p2.strView = p1.strView ++ w
              rw [hfacts2.1, hfacts1.1, strView_commitParsedBytes,
                strView_commitParsedBytes, hq1v, hq2v, hv,
                List.drop_append_of_le_length (by omega)]
        | CONTINUE =>
            dsimp only at h2 ⊢
            have hcq : core (q1.commitParsedBytes (h4' + 4)) =
                core (q2.commitParsedBytes (h4' + 4)) := by
              rw [core_commitParsedBytes, core_commitParsedBytes]
              exact hq
            have hvs := validateHeadersSetup_congr hcq
            have hfacts1 :=
              validateHeadersSetup_facts (q1.commitParsedBytes (h4' + 4))
            have hfacts2 :=
              validateHeadersSetup_facts (q2.commitParsedBytes (h4' + 4))
            rcases hv1 : validateHeadersSetup (q1.commitParsedBytes (h4' + 4))
              with ⟨b1, p1⟩
            rcases hv2 : validateHeadersSetup (q2.commitParsedBytes (h4' + 4))
              with ⟨b2, p2⟩
            rw [hv1, hv2] at hvs
            rw [hv1] at hfacts1
            rw [hv2] at hfacts2
            rw [hv2] at h2
            obtain ⟨hb, hp⟩ := hvs
            dsimp only at hb hp
            subst hb
            cases b1
            · simp at h2
            · refine Or.inr ⟨by simp, by exact hp, ?_⟩
              show p2.strView = p1.strView ++ w
              rw [hfacts2.1, hfacts1.1, strView_commitParsedBytes,
                strView_commitParsedBytes, hq1v, hq2v, hv,
                List.drop_append_of_le_length (by omega)]
        | DONE =>
            dsimp only at h2 ⊢
            have hcq : core (q1.commitParsedBytes (h4' + 4)) =
                core (q2.commitParsedBytes (h4' + 4)) := by
              rw [core_commitParsedBytes, core_commitParsedBytes]
              exact hq
            have hvs := validateHeadersSetup_congr hcq
            have hfacts1 :=
              validateHeadersSetup_facts (q1.commitParsedBytes (h4' + 4))
            have hfacts2 :=
              validateHeadersSetup_facts (q2.commitParsedBytes (h4' + 4))
            rcases hv1 : validateHeadersSetup (q1.commitParsedBytes (h4' + 4))
              with ⟨b1, p1⟩
            rcases hv2 : validateHeadersSetup (q2.commitParsedBytes (h4' + 4))
              with ⟨b2, p2⟩
            rw [hv1, hv2] at hvs
            rw [hv1] at hfacts1
            rw [hv2] at hfacts2
            rw [hv2] at h2
            obtain ⟨hb, hp⟩ := hvs
            dsimp only at hb hp
            subst hb
            cases b1
            · simp at h2
            · refine Or.inr ⟨by simp, by exact hp, ?_⟩
              show p2.strView = p1.strView ++ w
              rw [hfacts2.1, hfacts1.1, strView_commitParsedBytes,
                strView_commitParsedBytes, hq1v, hq2v, hv,
                List.drop_append_of_le_length (by omega)]

theorem parseRequestLine_sync {r1 r2 : HttpRequest} {w : Bytes}
    (hc : core r1 = core r2) (hv : r2.strView = r1.strView ++ w)
    (h2 : (parseRequestLine r2).1 = .CONTINUE) :
    (parseRequestLine r1 = (.WAIT_FOR_DATA, r1) ∧ w ≠ []) ∨
    ((parseRequestLine r1).1 = .CONTINUE ∧
     core (parseRequestLine r1).2 = core (parseRequestLine r2).2 ∧
     (parseRequestLine r2).2.strView =
       (parseRequestLine r1).2.strView ++ w) := by
  unfold parseRequestLine at h2 ⊢
  dsimp only at h2 ⊢
  rcases hf2 : findSub r2.strView crlf with _ | e <;> simp only [hf2] at h2
  · simp at h2
  · rcases hf1 : findSub r1.strView crlf with _ | e1 <;> simp only [hf1]
    · refine Or.inl ⟨by simp, ?_⟩
      intro hw
      subst hw
      rw [(by simpa using hv : r2.strView = r1.strView)] at hf2
      rw [hf1] at hf2
      simp at hf2
    · have he : e1 = e := by
        have hx := findSub_append (w := w) hf1
        rw [← hv] at hx
        rw [hf2] at hx
        simp at hx
        omega
      subst he
      have hbound : e1 + 2 ≤ r1.strView.length := by
        have := findSub_bound hf1
        simpa [crlf] using this
      have hlen : (r1.strView.take e1).length = e1 := by
        simp [List.length_take]
        omega
      have htk : r2.strView.take e1 = r1.strView.take e1 := by
        rw [hv]
        exact take_append_left (by omega)
      rw [htk] at h2 ⊢
      split at h2
      · simp at h2
      · rename_i hne
        rw [if_neg hne, if_neg hne]
        rcases hsp : findSub (r1.strView.take e1) [' '] with _ | method_end <;>
          simp only [hsp] at h2 ⊢
        · simp at h2
        · rcases hsq : findSubFrom (r1.strView.take e1) [' '] (method_end + 1)
            with _ | target_end <;> simp only [hsq] at h2 ⊢
          · simp at h2
          · have hmc : (r1.setMethod
                  ((r1.strView.take e1).take method_end)).method_code =
                (r2.setMethod
                  ((r1.strView.take e1).take method_end)).method_code :=
              congrArg CoreState.method_code
                (HttpRequest.core_setMethod_congr hc _)
            by_cases hmk : (r2.setMethod
                ((r1.strView.take e1).take method_end)).method_code = .UNKNOWN
            · rw [if_pos hmk] at h2
              simp at h2
            · rw [if_neg hmk] at h2
              rw [if_neg (by rw [hmc]; exact hmk), if_neg hmk]
              rcases validateRequestTarget_char
                  (((r1.strView.take e1).drop (method_end + 1)).take
                    (target_end - (method_end + 1))) with hall | ⟨m, c, hall⟩
              · rw [hall] at h2
                rw [hall, hall]
                dsimp only at h2 ⊢
                rcases validateHttpVersion_char
                    ((r1.strView.take e1).drop (target_end + 1)) with
                  hvv | ⟨m, c, hvv⟩
                · rw [hvv] at h2
                  rw [hvv, hvv]
                  dsimp only
                  refine Or.inr ⟨by simp, ?_, ?_⟩
                  · apply HttpRequest.core_setParsingState_congr
                    rw [core_commitParsedBytes, core_commitParsedBytes]
                    apply HttpRequest.core_setHttpVersion_congr
                    apply HttpRequest.core_setRequestTarget_congr
                    exact HttpRequest.core_setMethod_congr hc _
                  · rw [strView_setParsingState, strView_setParsingState,
                      if_neg (by simp), if_neg (by simp),
                      strView_commitParsedBytes, strView_commitParsedBytes]
                    show r2.strView.drop ((r1.strView.take e1).length + 2) =
                      r1.strView.drop ((r1.strView.take e1).length + 2) ++ w
                    rw [hlen, hv, List.drop_append_of_le_length (by omega)]
                · rw [hvv] at h2
                  simp at h2
              · rw [hall] at h2
                simp at h2

theorem parseStep_sync {r1 r2 : HttpRequest} {w : Bytes}
    (hc : core r1 = core r2) (hv : r2.strView = r1.strView ++ w)
    (h2 : (parseStep r2).1 = .CONTINUE) :
    (parseStep r1 = (.WAIT_FOR_DATA, r1) ∧ w ≠ []) ∨
    ((parseStep r1).1 = .CONTINUE ∧
     core (parseStep r1).2 = core (parseStep r2).2 ∧
     (parseStep r2).2.strView = (parseStep r1).2.strView ++ w) := by
  have hst : r2.state = r1.state := (congrArg CoreState.state hc).symm
  unfold parseStep at h2 ⊢
  rw [hst] at h2 ⊢
  cases hx : r1.state <;> rw [hx] at h2 <;> dsimp only at h2 ⊢
  case REQUEST_LINE => exact parseRequestLine_sync hc hv h2
  case HEADERS => exact parseRequestHeaders_sync hc hv h2
  case BODY => exact parseRequestBody_sync hc hv h2
  case CHUNKED_BODY_SIZE => exact parseRequestChunkedBodySize_sync hc hv h2
  case CHUNKED_BODY_DATA => exact parseRequestChunkedBodyData_sync hc hv h2
  case CHUNKED_BODY_TRAILER => exact parseRequestChunkedBodyTrailer_sync hc hv h2
  case COMPLETE => simp at h2

theorem parseLoop_sync {r1 r2 R2 : HttpRequest} {w : Bytes}
    (hc : core r1 = core r2) (hv : r2.strView = r1.strView ++ w)
    (h2 : parseLoop r2 = (.DONE, R2)) :
    (∃ R1, parseLoop r1 = (.DONE, R1) ∧ core R1 = core R2) ∨
    (∃ r1a r2a, parseLoop r1 = (.WAIT_FOR_DATA, r1a) ∧ w ≠ [] ∧
      core r1a = core r2a ∧ r2a.strView = r1a.strView ++ w ∧
      parseLoop r2a = (.DONE, R2)) := by
  have hst : r1.state = r2.state := congrArg CoreState.state hc
  by_cases hs2 : r2.state = .COMPLETE
  · rw [parseLoop_complete hs2] at h2
    injection h2 with h2a h2b
    subst h2b
    exact Or.inl ⟨r1, parseLoop_complete (hst.trans hs2), hc⟩
  · have hs1 : r1.state ≠ .COMPLETE := by rw [hst]; exact hs2
    by_cases hc2 : (parseStep r2).1 = .CONTINUE
    · rcases parseStep_sync hc hv hc2 with ⟨hw1, hwne⟩ | ⟨h1c, hcore, hview⟩
      · have hwait : parseLoop r1 = (.WAIT_FOR_DATA, r1) := by
          rw [parseLoop_exit hs1 (by rw [hw1]; simp)]
          exact hw1
        exact Or.inr ⟨r1, r2, hwait, hwne, hc, hv, h2⟩
      · rw [parseLoop_step hs2 hc2] at h2
        have hrec := parseLoop_sync hcore hview h2
        rw [parseLoop_step hs1 h1c]
        exact hrec
    · rw [parseLoop_exit hs2 hc2] at h2
      have hnd := (parseStep_facts r2 hs2).1
      rw [h2] at hnd
      simp at hnd
termination_by parseMeasure r2
decreasing_by
  exact (parseStep_facts r2 hs2).2.2 hc2

theorem parseLoop_congr {r1 r2 R2 : HttpRequest}
    (hc : core r1 = core r2) (hv : r2.strView = r1.strView)
    (h2 : parseLoop r2 = (.DONE, R2)) :
    ∃ R1, parseLoop r1 = (.DONE, R1) ∧ core R1 = core R2 := by
  rcases parseLoop_sync (w := ([] : Bytes)) hc (by simpa using hv) h2 with
    h | ⟨r1a, r2a, hw1, hne, hrest⟩
  · exact h
  · exact absurd rfl hne

/-! ## Claim C1: split-stream resumability of parseRequest -/

/-- C1: feeding an input to `parseRequest` split into two consecutive pieces
leaves the request in the same core state (method, request target, version,
headers, body, body length, chunked flag, parsing state, error flag, status
code) as feeding the whole string at once: whenever the single-shot parse
returns `DONE`, either the first piece already returns `DONE` with the same
core state, or the first piece leaves the parser waiting for data and the
second piece completes it with the same core state. -/
theorem c1_parse_split_resumable {d1 d2 : Bytes} {R : HttpRequest}
    (hw : parseRequest (d1 ++ d2) freshRequest = (.DONE, R)) :
    (∃ R1, parseRequest d1 freshRequest = (.DONE, R1) ∧ core R1 = core R) ∨
    (∃ r1, parseRequest d1 freshRequest = (.WAIT_FOR_DATA, r1) ∧
      ∃ R1, parseRequest d2 r1 = (.DONE, R1) ∧ core R1 = core R) := by
  have hfresh : offsetInv freshRequest := Nat.le.refl
  by_cases h1e : d1 = []
  · subst h1e
    refine Or.inr ⟨freshRequest, ?_, R, ?_, rfl⟩
    · unfold parseRequest
      simp
    · simpa using hw
  · have hwne : ¬ (d1 ++ d2).isEmpty = true := by
      simp only [List.isEmpty_iff, List.append_eq_nil]
      intro h
      exact h1e h.1
    unfold parseRequest at hw ⊢
    rw [if_neg hwne] at hw
    rw [if_neg (by simpa [List.isEmpty_iff] using h1e)]
    have hcv : core (freshRequest.appendBuffer d1) =
        core (freshRequest.appendBuffer (d1 ++ d2)) := by
      rw [HttpRequest.core_appendBuffer, HttpRequest.core_appendBuffer]
    have hview : (freshRequest.appendBuffer (d1 ++ d2)).strView =
        (freshRequest.appendBuffer d1).strView ++ d2 := by
      rw [HttpRequest.strView_appendBuffer _ _ hfresh,
        HttpRequest.strView_appendBuffer _ _ hfresh, List.append_assoc]
    rcases parseLoop_sync hcv hview hw with
      ⟨R1, hl, hcore⟩ | ⟨r1a, r2a, hl, hne, hcore, hview2, hdone⟩
    · exact Or.inl ⟨R1, hl, hcore⟩
    · refine Or.inr ⟨r1a, hl, ?_⟩
      rw [if_neg (by simpa [List.isEmpty_iff] using hne)]
      have hinv1 : offsetInv r1a := by
        have h := parseLoop_inv (freshRequest.appendBuffer d1)
          (HttpRequest.offsetInv_appendBuffer _ _ hfresh)
        rw [hl] at h
        exact h
      have hc2 : core (r1a.appendBuffer d2) = core r2a := by
        rw [HttpRequest.core_appendBuffer]
        exact hcore
      have hv2 : r2a.strView = (r1a.appendBuffer d2).strView := by
        rw [HttpRequest.strView_appendBuffer _ _ hinv1]
        exact hview2
      exact parseLoop_congr hc2 hv2 hdone

/-- Helper: one iteration of the header-line loop when the content holds a
single header line without a terminating CRLF. -/
theorem parseHeaderLinesLoop_single (content : Bytes) (r : HttpRequest)
    (hne : content ≠ []) (h : findSub content crlf = none)
    (hst : (parseRequestHeaderLine content r).1 ≠ .ERROR) :
    parseHeaderLinesLoop content r =
      (.CONTINUE, (parseRequestHeaderLine content r).2) := by
  rw [parseHeaderLinesLoop, dif_neg hne]
  dsimp only
  rw [h]
  dsimp only [Option.getD]
  rw [List.take_length]
  rcases hp : parseRequestHeaderLine content r with ⟨st, r1⟩
  rw [hp] at hst
  cases st
  case ERROR => simp at hst
  all_goals dsimp only
  all_goals rw [if_pos rfl]

/-- Witness for C1 at a concrete split of a concrete request. -/
theorem c1_parse_split_resumable_witness :
    ∃ R, parseRequest (strB "GET / HT" ++ strB "TP/1.1\r\nHost: a\r\n\r\n")
        freshRequest = (.DONE, R) ∧
      ((∃ R1, parseRequest (strB "GET / HT") freshRequest = (.DONE, R1) ∧
          core R1 = core R) ∨
       (∃ r1, parseRequest (strB "GET / HT") freshRequest =
            (.WAIT_FOR_DATA, r1) ∧
          ∃ R1, parseRequest (strB "TP/1.1\r\nHost: a\r\n\r\n") r1 =
              (.DONE, R1) ∧ core R1 = core R)) := by
  have h0 : parseRequest
      (strB "GET / HT" ++ strB "TP/1.1\r\nHost: a\r\n\r\n") freshRequest =
      parseLoop (freshRequest.appendBuffer
        (strB "GET / HT" ++ strB "TP/1.1\r\nHost: a\r\n\r\n")) := by
    unfold parseRequest
    rw [if_neg (by decide)]
  have hkey : parseStep (parseStep (freshRequest.appendBuffer
      (strB "GET / HT" ++ strB "TP/1.1\r\nHost: a\r\n\r\n"))).2 =
      (.CONTINUE,
        (validateHeadersSetup
          ((parseRequestHeaderLine
              ((parseStep (freshRequest.appendBuffer
                (strB "GET / HT" ++
                  strB "TP/1.1\r\nHost: a\r\n\r\n"))).2.strView.take 7)
              (parseStep (freshRequest.appendBuffer
                (strB "GET / HT" ++
                  strB "TP/1.1\r\nHost: a\r\n\r\n"))).2).2.commitParsedBytes
            (7 + 4))).2) := by
    show parseRequestHeaders (parseStep (freshRequest.appendBuffer
      (strB "GET / HT" ++ strB "TP/1.1\r\nHost: a\r\n\r\n"))).2 = _
    unfold parseRequestHeaders
    dsimp only
    rw [if_neg (by decide)]
    split
    · rename_i hnone
      exact absurd hnone (by decide)
    · rename_i headers_end hsome
      have h7 : some headers_end = some 7 := hsome.symm.trans (by decide)
      injection h7 with h7
      subst h7
      rw [parseHeaderLinesLoop_single _ _ (by decide) (by decide) (by decide)]
      dsimp only
      split
      · rename_i r2 hvs
        have hfst := congrArg Prod.fst hvs
        dsimp only at hfst
        exact absurd hfst (by decide)
      · rename_i r2 hvs
        have hsnd := congrArg Prod.snd hvs
        dsimp only at hsnd
        rw [← hsnd]
  have h1 : ∃ R, parseLoop (freshRequest.appendBuffer
      (strB "GET / HT" ++ strB "TP/1.1\r\nHost: a\r\n\r\n")) = (.DONE, R) :=
    ⟨_, by
      rw [parseLoop_step (by decide) (by decide),
        parseLoop_step (by decide) (by rw [hkey]),
        hkey,
        parseLoop_step (by decide) (by decide),
        parseLoop_complete (by decide)]⟩
  obtain ⟨R, h1⟩ := h1
  have hw := h0.trans h1
  exact ⟨_, hw, c1_parse_split_resumable hw⟩

/-! ## Claim C9: the parsed-offset invariant and buffer compaction -/

/-- C9: at every step of parsing any input — each `parseStep` of the driving
loop and each whole `parseRequest` call — the parsed offset stays at most the
buffer length (`offsetInv`), and buffer compaction (`eraseParsedBuffer`)
leaves the unparsed suffix `strView` byte-for-byte unchanged. -/
theorem c9_offset_invariant_and_compaction :
    (∀ r, offsetInv r → ∀ data, offsetInv (parseRequest data r).2) ∧
    (∀ r, offsetInv r → offsetInv (parseStep r).2) ∧
    (∀ (r : HttpRequest) (b : Nat),
      (r.eraseParsedBuffer b).strView = r.strView) := by
  refine ⟨?_, ?_, ?_⟩
  · intro r h data
    unfold parseRequest
    split
    · exact h
    · exact parseLoop_inv _ (HttpRequest.offsetInv_appendBuffer _ _ h)
  · intro r h
    by_cases hs : r.state = .COMPLETE
    · unfold parseStep
      rw [hs]
      exact h
    · exact (parseStep_facts r hs).2.1 h
  · intro r b
    exact HttpRequest.strView_eraseParsedBuffer r b

/-- Witness for C9 at a concrete request and input. -/
theorem c9_offset_invariant_and_compaction_witness :
    offsetInv (parseRequest (strB "GET") freshRequest).2 ∧
    offsetInv (parseStep freshRequest).2 ∧
    (freshRequest.eraseParsedBuffer 0).strView = freshRequest.strView :=
  ⟨c9_offset_invariant_and_compaction.1 freshRequest Nat.le.refl (strB "GET"),
   c9_offset_invariant_and_compaction.2.1 freshRequest Nat.le.refl,
   c9_offset_invariant_and_compaction.2.2 freshRequest 0⟩

/-! ## Claim C10: errors are sticky and later calls return DONE -/

/-- C10: `setErrorStatus` records a sticky error — it sets the error flag,
stores the status code and forces the parsing state to `COMPLETE` — and any
later `parseRequest` call with non-empty data on such a request returns
`DONE` (never `ERROR`), leaving the error flag, status code and `COMPLETE`
state untouched, so the error stays observable only through those fields. -/
theorem c10_error_sticky_done (r : HttpRequest) (m : Bytes) (c : Nat)
    (data : Bytes) (hd : data ≠ []) :
    (r.setErrorStatus m c).state = .COMPLETE ∧
    (r.setErrorStatus m c).is_error = true ∧
    (r.setErrorStatus m c).status_code = c ∧
    ∃ R, parseRequest data (r.setErrorStatus m c) = (.DONE, R) ∧
      R.is_error = true ∧ R.status_code = c ∧ R.state = .COMPLETE := by
  refine ⟨rfl, rfl, rfl,
    (r.setErrorStatus m c).appendBuffer data, ?_, ?_, ?_, ?_⟩
  · unfold parseRequest
    rw [if_neg (by simpa [List.isEmpty_iff] using hd)]
    exact parseLoop_complete (by rw [HttpRequest.state_appendBuffer]; rfl)
  · exact congrArg CoreState.is_error (HttpRequest.core_appendBuffer _ _)
  · exact congrArg CoreState.status_code (HttpRequest.core_appendBuffer _ _)
  · exact congrArg CoreState.state (HttpRequest.core_appendBuffer _ _)

/-- Witness for C10 at a concrete errored request and non-empty data. -/
theorem c10_error_sticky_done_witness :
    (freshRequest.setErrorStatus (strB "Bad request line") 400).state =
        .COMPLETE ∧
    (freshRequest.setErrorStatus (strB "Bad request line") 400).is_error =
        true ∧
    (freshRequest.setErrorStatus (strB "Bad request line") 400).status_code =
        400 ∧
    ∃ R, parseRequest (strB "GET")
        (freshRequest.setErrorStatus (strB "Bad request line") 400) =
        (.DONE, R) ∧
      R.is_error = true ∧ R.status_code = 400 ∧ R.state = .COMPLETE :=
  c10_error_sticky_done freshRequest (strB "Bad request line") 400
    (strB "GET") (by decide)

end HttpRequestParser

/-! ## HttpResponse (src/srcs/HttpResponse.cpp)

The status code is kept as the `int` value of `HttpUtils::HttpStatusCode`
(`UKNOWN` is 0); the header map is a key-sorted association list, keys
stored lowercased as `insertHeader` does. -/

structure HttpResponse where
  status_code : Int
  headers : List (Bytes × Bytes)
  body : Bytes
  content_type : Bytes
  is_error_response : Bool
  is_keep_alive_connection : Bool
deriving DecidableEq, Repr

/-- The `HttpResponse` default constructor. -/
def freshResponse : HttpResponse :=
  { status_code := 418, headers := [], body := [], content_type := [],
    is_error_response := false, is_keep_alive_connection := true }

namespace HttpResponse

/-- `HttpResponse::setStatusCode` (`UKNOWN`, value 0, becomes `I_AM_TEAPOD`,
value 418). -/
def setStatusCode (resp : HttpResponse) (code : Int) : HttpResponse :=
  if code = 0 then { resp with status_code := 418 }
  else { resp with status_code := code }

/-- `HttpResponse::insertHeader`: it assigns through `map::find` and only
touches an existing key, so a missing key is never added. -/
def insertHeader (resp : HttpResponse) (field_name value : Bytes) :
    HttpResponse :=
  let lowercase_name := lowerBytes field_name
  match mapLookup resp.headers lowercase_name with
  | some _ => { resp with headers := mapSet resp.headers lowercase_name value }
  | none => resp

/-- `HttpResponse::setBody` (the C++ declaration defaults `content_type` to
`text/plain`; call sites using the default pass it explicitly here). -/
def setBody (resp : HttpResponse) (body content_type : Bytes) : HttpResponse :=
  { resp with body := body, content_type := content_type }

/-- `HttpResponse::setContentType`. -/
def setContentType (resp : HttpResponse) (content_type : Bytes) : HttpResponse :=
  { resp with content_type := content_type }

/-- `HttpResponse::setConnectionHeader`. -/
def setConnectionHeader (resp : HttpResponse)
    (request_connection request_http_version : Bytes) : HttpResponse :=
  if resp.status_code = 400 ∨ resp.status_code = 408 ∨ 411 ≤ resp.status_code ∨
      request_connection = strB "close" ∨
      (request_http_version = strB "HTTP/1.0" ∧
        request_connection ≠ strB "keep-alive") then
    { resp.insertHeader (strB "Connection") (strB "close") with
        is_keep_alive_connection := false }
  else
    { resp.insertHeader (strB "Connection") (strB "keep-alive") with
        is_keep_alive_connection := true }

/-- `HttpResponse::setErrorResponse`. -/
def setErrorResponse (resp : HttpResponse) (code : Int) (message : Bytes) :
    HttpResponse :=
  { (resp.setStatusCode code).setBody message (strB "text/plain") with
      is_error_response := true }

/-- `HttpResponse::whatReasonPhrase`. -/
def whatReasonPhrase (code : Int) : Bytes :=
  if code = 100 then strB "Continue"
  else if code = 101 then strB "Switching Protocols"
  else if code = 200 then strB "OK"
  else if code = 201 then strB "Created"
  else if code = 202 then strB "Accepted"
  else if code = 203 then strB "Non-Authoritative Information"
  else if code = 204 then strB "No Content"
  else if code = 205 then strB "Reset Content"
  else if code = 206 then strB "Partial Content"
  else if code = 300 then strB "Multiple Choices"
  else if code = 301 then strB "Moved Permanently"
  else if code = 302 then strB "Found"
  else if code = 303 then strB "See Other"
  else if code = 304 then strB "Not Modified"
  else if code = 305 then strB "Use Proxy"
  else if code = 307 then strB "Temporary Redirect"
  else if code = 400 then strB "Bad Request"
  else if code = 401 then strB "Unauthorized"
  else if code = 403 then strB "Forbidden"
  else if code = 404 then strB "Not Found"
  else if code = 405 then strB "Method Not Allowed"
  else if code = 406 then strB "Not Acceptable"
  else if code = 407 then strB "Proxy Authentication Required"
  else if code = 408 then strB "Request Timeout"
  else if code = 409 then strB "Conflict"
  else if code = 410 then strB "Gone"
  else if code = 411 then strB "Length Required"
  else if code = 413 then strB "Content Too Large"
  else if code = 414 then strB "URI Too Long"
  else if code = 415 then strB "Unsupported Media Type"
  else if code = 416 then strB "Range Not Satisfiable"
  else if code = 417 then strB "Expectation Failed"
  else if code = 418 then strB "I'm a teapot"
  else if code = 429 then strB "Too Many Requests"
  else if code = 500 then strB "Internal Server Error"
  else if code = 501 then strB "Not Implemented"
  else if code = 502 then strB "Bad Gateway"
  else if code = 503 then strB "Service Unavailable"
  else if code = 504 then strB "Gateway Timeout"
  else if code = 505 then strB "HTTP Version Not Supported"
  else strB "Unknown"

/-- Body of the loop of `HttpResponse::capitalizeHeaderFieldName`. -/
def capitalizeGo : Bool → Bytes → Bytes
  | _, [] => []
  | is_uppercase, c :: t =>
      if is_uppercase ∧ asciiIsAlpha c then asciiToUpper c :: capitalizeGo false t
      else if c = '-' then c :: capitalizeGo true t
      else c :: capitalizeGo is_uppercase t

/-- `HttpResponse::capitalizeHeaderFieldName`. -/
def capitalizeHeaderFieldName (field_name : Bytes) : Bytes :=
  capitalizeGo true field_name

/-- `std::to_string` on an `int`. -/
def intToBytes (i : Int) : Bytes := (Int.repr i).data

/-- The header loop of `HttpResponse::convertToString`. -/
def headerLines : List (Bytes × Bytes) → Bytes
  | [] => []
  | (k, v) :: t =>
      capitalizeHeaderFieldName k ++ strB ": " ++ v ++ strB "\r\n" ++
        headerLines t

/-- `HttpResponse::convertToString`; `whatDateGMT` reads the clock, so the
date string is a parameter. -/
def convertToString (resp : HttpResponse) (date : Bytes) : Bytes :=
  strB "HTTP/1.1" ++ strB " " ++ intToBytes resp.status_code ++ strB " " ++
    whatReasonPhrase resp.status_code ++ strB "\r\n" ++
  strB "Server: Webserv" ++ strB "\r\n" ++
  strB "Date: " ++ date ++ strB "\r\n" ++
  strB "Content-Length: " ++
    (if resp.body.isEmpty then strB "0" else toBytes resp.body.length) ++
    strB "\r\n" ++
  (if ¬ resp.body.isEmpty then
    strB "Content-Type: " ++
      (if resp.content_type.isEmpty then strB "text/plain"
       else resp.content_type) ++ strB "\r\n"
  else []) ++
  headerLines resp.headers ++
  strB "\r\n" ++ resp.body

end HttpResponse

/-! ## Configuration records (src/includes/Config.hpp); only the fields the
embedded routines read are modelled. -/

structure LocationConfig where
  path : Bytes
  root : Bytes
  index : Bytes
  autoindex : Bool
  client_max_body_size : Nat
  redirect_url : Bytes
  allowed_methods : List Bytes
  cgi_ext : List Bytes
  cgi_path : List Bytes
deriving DecidableEq, Repr

structure ServerConfig where
  locations : List LocationConfig
deriving DecidableEq, Repr

/-! ## HttpUtils (src/srcs/HttpUtils.cpp) -/

namespace HttpUtils

/-- The loop of `HttpUtils::getLocation`, carrying the best match and
`max_location_length`. -/
def getLocationGo (request_uri : Bytes) :
    List LocationConfig → Option LocationConfig → Nat → Option LocationConfig
  | [], best, _ => best
  | loc :: t, best, maxlen =>
      if findSub request_uri loc.path = some 0 ∧ maxlen < loc.path.length then
        getLocationGo request_uri t (some loc) loc.path.length
      else getLocationGo request_uri t best maxlen

/-- `HttpUtils::getLocation`. -/
def getLocation (request_uri : Bytes) (config : ServerConfig) :
    Option LocationConfig :=
  getLocationGo request_uri config.locations none 0

/-- `HttpUtils::getFilePath`. -/
def getFilePath (location : LocationConfig) (request_uri : Bytes) : Bytes :=
  let path := if location.root ≠ [] ∧ location.root.getLast? ≠ some '/' then
      location.root ++ strB "/"
    else location.root
  let e := match findSub request_uri (strB "?") with
    | some q => q
    | none => request_uri.length
  match request_uri with
  | '/' :: rest => path ++ rest.take (e - 1)
  | _ => path ++ request_uri.take e

/-- `HttpUtils::isFilePathSecure`; `std::filesystem::weakly_canonical` is an
oracle (`none` models a throw). -/
def isFilePathSecure (canon : Bytes → Option Bytes) (path root : Bytes) :
    Bool :=
  match canon path with
  | none => false
  | some secure_path =>
    match canon root with
    | none => false
    | some secure_root =>
      if findSub secure_path secure_root = some 0 then true else false

/-- `HttpUtils::isMethodAllowed`. -/
def isMethodAllowed (location : LocationConfig) (method : Bytes) : Bool :=
  if location.allowed_methods.isEmpty then true
  else location.allowed_methods.contains method

end HttpUtils

/-! ## CgiHandler (src/srcs/CgiHandler.cpp) -/

namespace CgiHandler

/-- `std::string::find_last_of(c)`. -/
def findLastOf (hay : Bytes) (c : Char) : Option Nat :=
  match hay.reverse.findIdx? (fun x => x = c) with
  | none => none
  | some i => some (hay.length - 1 - i)

/-- `CgiHandler::isCgiRequest`; the `std::filesystem` queries are oracles. -/
def isCgiRequest (fsExists fsIsDirectory fsIsRegularFile : Bytes → Bool)
    (file_path : Bytes) (location : LocationConfig) : Bool :=
  if location.cgi_ext.isEmpty then false
  else
    let script : Option Bytes :=
      if fsExists file_path ∧ fsIsDirectory file_path then
        if ¬ location.index.isEmpty then
          let index_path :=
            (if file_path ≠ [] ∧ file_path.getLast? ≠ some '/' then
              file_path ++ strB "/"
            else file_path) ++ location.index
          if fsExists index_path ∧ fsIsRegularFile index_path then
            some index_path
          else none
        else none
      else some file_path
    match script with
    | none => false
    | some script_path =>
      match findLastOf script_path '.' with
      | none => false
      | some dot_pos => location.cgi_ext.contains (script_path.drop dot_pos)

/-- `std::getline` over an `istringstream`: the lines produced by the
header loop of `CgiHandler::parseOutput`. -/
def getlineLinesGo (acc : Bytes) : Bytes → List Bytes
  | [] => [acc.reverse]
  | c :: t =>
      if c = '\n' then
        acc.reverse :: (if t = [] then [] else getlineLinesGo [] t)
      else getlineLinesGo (c :: acc) t

def getlineLines (s : Bytes) : List Bytes :=
  if s = [] then [] else getlineLinesGo [] s

/-- `value.erase(0, value.find_first_not_of(" \t"))`. -/
def ltrimSpaceTab (s : Bytes) : Bytes :=
  s.dropWhile (fun c => c = ' ' ∨ c = '\t')

/-- `std::isspace` in the C locale. -/
def isCSpace (c : Char) : Bool :=
  c = ' ' ∨ c = '\t' ∨ c = '\n' ∨ c = '\r' ∨ c.toNat = 11 ∨ c.toNat = 12

def natOfDecDigits (ds : Bytes) : Nat :=
  ds.foldl (fun a c => a * 10 + (c.toNat - 48)) 0

/-- `std::stoi`: skip whitespace, optional sign, at least one decimal digit
(`none` models the `invalid_argument` throw; the only call site passes at
most three characters, so `out_of_range` cannot fire). -/
def stoiPrefix (s : Bytes) : Option Int :=
  let s1 := s.dropWhile isCSpace
  let signed : Int × Bytes :=
    match s1 with
    | '-' :: t => (-1, t)
    | '+' :: t => (1, t)
    | t => (1, t)
  let digits := signed.2.takeWhile asciiIsDigit
  if digits.isEmpty then none
  else some (signed.1 * Int.ofNat (natOfDecDigits digits))

/-- One header line of the loop in `CgiHandler::parseOutput`: the state is
(response, content_type_value, status_was_set_by_cgi). -/
def parseOutputLine (resp : HttpResponse) (ct : Bytes) (flag : Bool)
    (line : Bytes) : HttpResponse × Bytes × Bool :=
  if line = [] ∨ (line.length = 1 ∧ line.headD ' ' = '\r') then (resp, ct, flag)
  else
    let line := if line.getLast? = some '\r' then line.dropLast else line
    match findSub line (strB ":") with
    | none => (resp, ct, flag)
    | some colon_pos =>
      let name := line.take colon_pos
      let value := ltrimSpaceTab (line.drop (colon_pos + 1))
      let lower_name := lowerBytes name
      if lower_name = strB "status" then
        match stoiPrefix (value.take 3) with
        | some status_code => (resp.setStatusCode status_code, ct, true)
        | none => (resp, ct, flag)
      else if lower_name = strB "content-type" then (resp, value, flag)
      else (resp.insertHeader name value, ct, flag)

/-- `CgiHandler::parseOutput`. -/
def parseOutput (output : Bytes) : HttpResponse :=
  let sep : Option Nat :=
    match findSub output (strB "\r\n\r\n") with
    | some p => some p
    | none => findSub output (strB "\n\n")
  let headers_part : Bytes :=
    match sep with
    | some p => output.take p
    | none => []
  let body_part : Bytes :=
    match sep with
    | some p =>
        output.drop
          (p + (if (output.drop p).take 4 = strB "\r\n\r\n" then 4 else 2))
    | none => output
  let st := (getlineLines headers_part).foldl
    (fun st line => parseOutputLine st.1 st.2.1 st.2.2 line)
    (freshResponse, strB "text/plain", false)
  let resp := st.1
  let resp := if st.2.2 then resp else resp.setStatusCode 200
  resp.setBody body_part st.2.1

end CgiHandler

/-! ## HttpMethodHandler (src/srcs/HttpMethodHandler.cpp) -/

namespace HttpMethodHandler

/-- `HttpMethodHandler::processMethod`; the filesystem, the CGI runner and
the three per-method handlers are oracle parameters. -/
def processMethod (canon : Bytes → Option Bytes)
    (fsExists fsIsDirectory fsIsRegularFile : Bytes → Bool)
    (cgiExecute : HttpRequest → LocationConfig → Bytes → HttpResponse)
    (handleGetMethod : Bytes → Bytes → LocationConfig → HttpResponse)
    (handlePostMethod : Bytes → HttpRequest → HttpResponse)
    (handleDeleteMethod : Bytes → HttpResponse)
    (request : HttpRequest) (config : ServerConfig) : HttpResponse :=
  let uri := request.request_target
  match HttpUtils.getLocation uri config with
  | none =>
      freshResponse.setErrorResponse 404
        (strB "Requested location not found: " ++ uri)
  | some location =>
    if location.client_max_body_size ≤ request.body_length then
      freshResponse.setErrorResponse 413
        (strB "Request body size (" ++ toBytes request.body_length ++
          strB " bytes) exceeds limit (" ++
          toBytes location.client_max_body_size ++ strB " bytes) for " ++
          request.method_raw ++ strB " request")
    else if location.redirect_url ≠ [] then
      (freshResponse.setErrorResponse 301
          (strB "Redirecting to " ++ location.redirect_url)).insertHeader
        (strB "Location") location.redirect_url
    else
      let file_path := HttpUtils.getFilePath location uri
      if ¬ HttpUtils.isFilePathSecure canon file_path location.root then
        freshResponse.setErrorResponse 404 (strB "Page/file doesn't exist")
      else if ¬ HttpUtils.isMethodAllowed location request.method_raw then
        freshResponse.setErrorResponse 405
          (strB "Method " ++ request.method_raw ++ strB " not allowed")
      else if CgiHandler.isCgiRequest fsExists fsIsDirectory fsIsRegularFile
          file_path location then
        cgiExecute request location file_path
      else
        match request.method_code with
        | .GET => handleGetMethod file_path uri location
        | .POST => handlePostMethod file_path request
        | .DELETE => handleDeleteMethod file_path
        | _ =>
            freshResponse.setErrorResponse 501
              (strB "Method " ++ request.method_raw ++ strB " not implemented")

/-- `HttpMethodHandler::getMultipartBoundary`. -/
def getMultipartBoundary (content_type : Bytes) : Bytes :=
  match findSub content_type (strB "boundary=") with
  | none => []
  | some boundary_pos =>
    let val_start := boundary_pos + 9
    match content_type.drop val_start with
    | '"' :: _ =>
        match findSubFrom content_type (strB "\x22") (val_start + 1) with
        | none => []
        | some val_end =>
            (content_type.drop (val_start + 1)).take (val_end - (val_start + 1))
    | _ =>
        let val_end :=
          match findFirstOfFrom content_type (strB " \t;") val_start with
          | none => content_type.length
          | some e => e
        (content_type.drop val_start).take (val_end - val_start)

/-- `HttpMethodHandler::getMultipartFileName`. -/
def getMultipartFileName (body : Bytes) (start e : Nat) : Bytes :=
  let headers := (body.drop start).take (e - start)
  match findSub headers (strB "Content-Disposition:") with
  | none => []
  | some content_disp_pos =>
    match findSubFrom headers (strB "filename=\x22") content_disp_pos with
    | none => []
    | some file_name_pos =>
      let file_name_pos := file_name_pos + 10
      match findSubFrom headers (strB "\x22") file_name_pos with
      | none => []
      | some file_name_end =>
          (headers.drop file_name_pos).take (file_name_end - file_name_pos)

/-- `std::filesystem::path::extension` on the uploaded file name. -/
def pathExtension (p : Bytes) : Bytes :=
  let comp :=
    match CgiHandler.findLastOf p '/' with
    | none => p
    | some i => p.drop (i + 1)
  if comp = strB "." ∨ comp = strB ".." then []
  else
    match CgiHandler.findLastOf comp '.' with
    | none => []
    | some 0 => []
    | some i => comp.drop i

/-- `HttpMethodHandler::isAllowedFileType`. -/
def isAllowedFileType (extension : Bytes) : Bool :=
  [strB "txt", strB "pdf", strB "doc", strB "docx", strB "jpg", strB "jpeg",
    strB "png", strB "gif", strB "zip", strB "tar", strB "html", strB "css",
    strB "js", strB "json"].contains extension

/-- `HttpMethodHandler::generateUploadSuccessHtml`. -/
def generateUploadSuccessHtml (files : List Bytes) : Bytes :=
  strB "<html><head><link rel=\x22stylesheet\x22 href=\x22/style.css\x22></head>" ++
  strB "<body><div class=\x22hero\x22><h1>Upload Success</h1>" ++
  strB "<p>Files: " ++ toBytes files.length ++ strB "</p>" ++
  strB "<a href=\x22/\x22 class=\x22cta-button\x22>Home</a></div></body></html>"

theorem findSubFrom_facts {hay pat : Bytes} {s p : Nat}
    (h : findSubFrom hay pat s = some p) :
    s ≤ p ∧ p + pat.length ≤ hay.length - s + s := by
  unfold findSubFrom at h
  rcases hq : findSub (hay.drop s) pat with _ | q <;> rw [hq] at h <;>
    simp at h
  have hb := findSub_bound hq
  simp only [List.length_drop] at hb
  omega

theorem findSubFrom_facts_pos {hay pat : Bytes} {s p : Nat} (hpat : pat ≠ [])
    (h : findSubFrom hay pat s = some p) :
    s ≤ p ∧ p + pat.length ≤ hay.length := by
  obtain ⟨h1, h2⟩ := findSubFrom_facts h
  have h3 : 0 < pat.length := List.length_pos.mpr hpat
  exact ⟨h1, by omega⟩

/-- The `while` loop of `HttpMethodHandler::handleMultipartFileUpload`;
`saveUploadedFile` is an oracle returning (success, error message). `inl`
is an early error response, `inr` the saved files at normal exit. -/
def multipartLoop (save : Bytes → Bytes → Bytes → Bool × Bytes)
    (path boundary body : Bytes) (start : Nat) (saved : List Bytes) :
    HttpResponse ⊕ List Bytes :=
  match h : findSubFrom body boundary start with
  | none => .inr saved
  | some p =>
    let s1 := p + boundary.length
    if (body.drop s1).take 2 = strB "--" then .inr saved
    else
      let s2 := if (body.drop s1).take 2 = strB "\r\n" then s1 + 2 else s1
      match h2 : findSubFrom body (strB "\r\n\r\n") s2 with
      | none => .inr saved
      | some header_end =>
        let filename := getMultipartFileName body s2 header_end
        let extension :=
          let ext := pathExtension filename
          if (findSub ext (strB ".")).isSome then ext.drop 1 else ext
        if ¬ isAllowedFileType extension then
          .inl (freshResponse.setErrorResponse 403
            (strB "Uploaded content type is not allowed: " ++ filename))
        else if filename = [] then
          multipartLoop save path boundary body (header_end + 4) saved
        else
          let filename := filename.map (fun c => if c = ' ' then '-' else c)
          let content_start := header_end + 4
          match h3 : findSubFrom body boundary content_start with
          | none => .inr saved
          | some next_boundary =>
            let content_end :=
              if 2 ≤ next_boundary ∧
                  (body.drop (next_boundary - 2)).take 2 = strB "\r\n" then
                next_boundary - 2
              else if 1 ≤ next_boundary ∧
                  body.get? next_boundary = some '\n' then
                next_boundary - 1
              else next_boundary
            let file_content :=
              (body.drop content_start).take (content_end - content_start)
            match save path filename file_content with
            | (false, error_msg) =>
                .inl (freshResponse.setErrorResponse 500
                  (strB "Failed to upload file: " ++ filename ++ strB " (" ++
                    error_msg ++ strB ")"))
            | (true, _) =>
                multipartLoop save path boundary body next_boundary
                  (saved ++ [filename])
termination_by body.length - start
decreasing_by
  · obtain ⟨hp1, hp2⟩ := findSubFrom_facts h
    obtain ⟨hq1, hq2⟩ := findSubFrom_facts_pos (by decide) h2
    have h4 : (strB "\r\n\r\n").length = 4 := rfl
    unfold s2 s1 at hq1
    split at hq1 <;> omega
  · obtain ⟨hp1, hp2⟩ := findSubFrom_facts h
    obtain ⟨hq1, hq2⟩ := findSubFrom_facts_pos (by decide) h2
    obtain ⟨hr1, hr2⟩ := findSubFrom_facts h3
    have h4 : (strB "\r\n\r\n").length = 4 := rfl
    unfold s2 s1 at hq1
    unfold content_start at hr1 hr2
    split at hq1 <;> omega

/-- `HttpMethodHandler::handleMultipartFileUpload`. -/
def handleMultipartFileUpload (save : Bytes → Bytes → Bytes → Bool × Bytes)
    (request : HttpRequest) (path content_type : Bytes) : HttpResponse :=
  let boundary := getMultipartBoundary content_type
  if boundary = [] then
    freshResponse.setErrorResponse 400
      (strB "Missing or invalid boundary parameter in Content-Type")
  else
    let boundary := strB "--" ++ boundary
    match multipartLoop save path boundary request.body 0 [] with
    | .inl resp => resp
    | .inr saved =>
      if saved.length = 0 then
        freshResponse.setErrorResponse 404
          (strB "No files found in multipart upload")
      else
        (freshResponse.setStatusCode 201).setBody
          (generateUploadSuccessHtml saved) (strB "text/html")

end HttpMethodHandler

/-! ## Claim C7: the emission shape of convertToString -/

/-- The emission C7 describes, written from the spec's words: status line,
`Server`, `Date`, a `Content-Length` whose decimal value equals the body
length in bytes, a `Content-Type` exactly when the body is non-empty
(`text/plain` when none was set), the remaining stored headers, an empty
CRLF line, the body bytes. -/
def convertToStringSpec (resp : HttpResponse) (date : Bytes) : Bytes :=
  strB "HTTP/1.1 " ++ HttpResponse.intToBytes resp.status_code ++ strB " " ++
    HttpResponse.whatReasonPhrase resp.status_code ++ strB "\r\n" ++
  strB "Server: Webserv" ++ strB "\r\n" ++
  strB "Date: " ++ date ++ strB "\r\n" ++
  strB "Content-Length: " ++ toBytes resp.body.length ++ strB "\r\n" ++
  (if resp.body ≠ [] then
    strB "Content-Type: " ++
      (if resp.content_type = [] then strB "text/plain"
       else resp.content_type) ++ strB "\r\n"
  else []) ++
  HttpResponse.headerLines resp.headers ++
  strB "\r\n" ++ resp.body

/-- C7: for every response and date, `convertToString` emits the status
line, then `Server`, `Date`, a `Content-Length` header whose decimal value
equals the body length in bytes, a `Content-Type` header exactly when the
body is non-empty (defaulting to `text/plain`), then the stored headers,
an empty CRLF line, and the body bytes. -/
theorem c7_convert_to_string_emission (resp : HttpResponse) (date : Bytes) :
    HttpResponse.convertToString resp date = convertToStringSpec resp date := by
  unfold HttpResponse.convertToString convertToStringSpec
  have h1 : (strB "HTTP/1.1" ++ strB " " : Bytes) = strB "HTTP/1.1 " := by
    decide
  by_cases hb : resp.body = []
  · have h0 : toBytes (List.length ([] : Bytes)) = strB "0" := by decide
    rw [hb]
    simp [← h1]
    decide
  · have h2 : resp.body.isEmpty = false := by
      simpa [List.isEmpty_iff] using hb
    simp [h2, hb, ← h1, List.isEmpty_iff]

/-! ## Claim C2: the Connection header decision -/

/-- C2 counterexample: a response produced by the router for a parsed
request (here the 404 branch), fed through `setConnectionHeader` with a
request `Connection: close`, ends with NO `Connection` header at all — the
header map stays empty because `HttpResponse::insertHeader` cannot add a
missing key — even though the keep-alive flag is correctly cleared. The
claim's sentence "the response's Connection header is set to 'close'"
fails. -/
theorem c2_connection_header_counterexample :
    ((HttpMethodHandler.processMethod (fun _ => none) (fun _ => false)
        (fun _ => false) (fun _ => false) (fun _ _ _ => freshResponse)
        (fun _ _ _ => freshResponse) (fun _ _ => freshResponse)
        (fun _ => freshResponse)
        { freshRequest with
            request_target := strB "/x", method_raw := strB "GET",
            method_code := .GET }
        { locations := [] }).setConnectionHeader (strB "close")
        (strB "HTTP/1.1")).headers = [] ∧
    ((HttpMethodHandler.processMethod (fun _ => none) (fun _ => false)
        (fun _ => false) (fun _ => false) (fun _ _ _ => freshResponse)
        (fun _ _ _ => freshResponse) (fun _ _ => freshResponse)
        (fun _ => freshResponse)
        { freshRequest with
            request_target := strB "/x", method_raw := strB "GET",
            method_code := .GET }
        { locations := [] }).setConnectionHeader (strB "close")
        (strB "HTTP/1.1")).is_keep_alive_connection = false := by
  constructor
  · rfl
  · rfl

/-- C2 corrected: `setConnectionHeader` clears the keep-alive flag exactly
under the claimed conditions (with the raw, not lowercased, request value),
but it stores no `Connection` header: when the map has no "connection" key
— as for every response the server builds, since response headers are
never inserted — the header map is left unchanged. -/
theorem c2_connection_flag_not_header (resp : HttpResponse) (rc rv : Bytes)
    (hnone : mapLookup resp.headers (strB "connection") = none) :
    ((resp.setConnectionHeader rc rv).is_keep_alive_connection = false ↔
      (resp.status_code = 400 ∨ resp.status_code = 408 ∨
        411 ≤ resp.status_code ∨ rc = strB "close" ∨
        (rv = strB "HTTP/1.0" ∧ rc ≠ strB "keep-alive"))) ∧
    (resp.setConnectionHeader rc rv).headers = resp.headers := by
  unfold HttpResponse.setConnectionHeader HttpResponse.insertHeader
  have hl : lowerBytes (strB "Connection") = strB "connection" := by decide
  dsimp only
  rw [hl, hnone]
  dsimp only
  split
  · rename_i hcond
    exact ⟨⟨fun _ => hcond, fun _ => rfl⟩, rfl⟩
  · rename_i hcond
    refine ⟨⟨fun h => absurd h (by simp), fun h => absurd h hcond⟩, rfl⟩

/-- Witness for C2 at a concrete response and request data. -/
theorem c2_connection_flag_not_header_witness :
    (((freshResponse.setStatusCode 200).setConnectionHeader (strB "close")
        (strB "HTTP/1.1")).is_keep_alive_connection = false ↔
      ((freshResponse.setStatusCode 200).status_code = 400 ∨
        (freshResponse.setStatusCode 200).status_code = 408 ∨
        411 ≤ (freshResponse.setStatusCode 200).status_code ∨
        strB "close" = strB "close" ∨
        (strB "HTTP/1.1" = strB "HTTP/1.0" ∧
          strB "close" ≠ strB "keep-alive"))) ∧
    ((freshResponse.setStatusCode 200).setConnectionHeader (strB "close")
        (strB "HTTP/1.1")).headers =
      (freshResponse.setStatusCode 200).headers :=
  c2_connection_flag_not_header (freshResponse.setStatusCode 200)
    (strB "close") (strB "HTTP/1.1") rfl

/-! ## Claim C3: CGI output parsing -/

/-- C3: the claimed pass-through of other CGI header lines into the
response's header map does not happen. On output carrying a custom header,
a Status header and a body, the Status and the body split work, but the
header map stays empty: `HttpResponse::insertHeader` only assigns to an
already present key, so `response.insertHeader(name, value)` in
`CgiHandler::parseOutput` drops every header. -/
theorem c3_cgi_header_passthrough_bug :
    (CgiHandler.parseOutput
      (strB "X-Custom: hello\r\nStatus: 404 Not Found\r\n\r\nbody")).headers =
        [] ∧
    (CgiHandler.parseOutput
      (strB "X-Custom: hello\r\nStatus: 404 Not Found\r\n\r\nbody")).status_code =
        404 ∧
    (CgiHandler.parseOutput
      (strB "X-Custom: hello\r\nStatus: 404 Not Found\r\n\r\nbody")).body =
        strB "body" ∧
    (CgiHandler.parseOutput
      (strB "X-Custom: hello\r\nStatus: 404 Not Found\r\n\r\nbody")).content_type =
        strB "text/plain" := by
  refine ⟨rfl, by decide, rfl, rfl⟩

/-! ## Claim C4: chunked body data -/

/-- C4 counterexample: with expected chunk length 5 and unparsed view
"ab\r\nc" the claim demands WAIT_FOR_DATA (no CRLF at or after 5 bytes
yet), but the parser takes the FIRST CRLF, at offset 2, and errors with
400. -/
theorem c4_chunked_data_counterexample :
    (HttpRequestParser.parseRequestChunkedBodyData
      { freshRequest with
          buffer := strB "ab\r\nc", state := .CHUNKED_BODY_DATA,
          expected_chunk_length := 5 }).1 =
      .ERROR ∧
    (HttpRequestParser.parseRequestChunkedBodyData
      { freshRequest with
          buffer := strB "ab\r\nc", state := .CHUNKED_BODY_DATA,
          expected_chunk_length := 5 }).2.status_code =
      400 ∧
    (HttpRequestParser.parseRequestChunkedBodyData
      { freshRequest with
          buffer := strB "ab\r\nc", state := .CHUNKED_BODY_DATA,
          expected_chunk_length := 5 }).1 ≠
      .WAIT_FOR_DATA := by
  refine ⟨by decide, by decide, by decide⟩

/-- C4 corrected: the parser seeks the FIRST CRLF of the unparsed view (not
a CRLF at or after the expected chunk length): no CRLF at all gives
WAIT_FOR_DATA; a first CRLF at any other offset than the expected length
gives ERROR 400; a first CRLF exactly at the expected length appends those
bytes to the body, grows the body length by that amount, advances past the
CRLF and moves to CHUNKED_BODY_SIZE. -/
theorem c4_chunked_data_first_crlf (r : HttpRequest) :
    (findSub r.strView crlf = none →
      HttpRequestParser.parseRequestChunkedBodyData r = (.WAIT_FOR_DATA, r)) ∧
    (∀ e, findSub r.strView crlf = some e →
      (e ≠ r.expected_chunk_length →
        (HttpRequestParser.parseRequestChunkedBodyData r).1 = .ERROR ∧
        (HttpRequestParser.parseRequestChunkedBodyData r).2.status_code = 400 ∧
        (HttpRequestParser.parseRequestChunkedBodyData r).2.is_error = true) ∧
      (e = r.expected_chunk_length →
        (HttpRequestParser.parseRequestChunkedBodyData r).1 = .CONTINUE ∧
        (HttpRequestParser.parseRequestChunkedBodyData r).2.body =
          r.body ++ r.strView.take e ∧
        (HttpRequestParser.parseRequestChunkedBodyData r).2.body_length =
          r.body_length + e ∧
        (HttpRequestParser.parseRequestChunkedBodyData r).2.state =
          .CHUNKED_BODY_SIZE ∧
        (HttpRequestParser.parseRequestChunkedBodyData r).2.strView =
          r.strView.drop (e + 2))) := by
  unfold HttpRequestParser.parseRequestChunkedBodyData
  dsimp only
  constructor
  · intro h
    rw [h]
  · intro e he
    rw [he]
    have hbound : e + 2 ≤ r.strView.length := by
      have := findSub_bound he
      simpa [crlf] using this
    have hlen : (r.strView.take e).length = e := by
      simp [List.length_take]
      omega
    dsimp only
    constructor
    · intro hne
      rw [if_pos (by rw [hlen]; exact hne)]
      exact ⟨rfl, rfl, rfl⟩
    · intro heq
      rw [if_neg (by rw [hlen]; simp [heq])]
      refine ⟨rfl, ?_, ?_, ?_, ?_⟩
      · simp [HttpRequest.setParsingState, HttpRequest.eraseParsedBuffer,
          HttpRequest.appendBody, HttpRequest.commitParsedBytes, apply_ite]
      · simp [HttpRequest.setParsingState, HttpRequest.eraseParsedBuffer,
          HttpRequest.appendBody, HttpRequest.commitParsedBytes, apply_ite,
          hlen]
      · exact HttpRequest.state_setParsingState _ _
      · rw [HttpRequest.strView_setParsingState, if_neg (by simp)]
        show ((r.commitParsedBytes (e + 2)).appendBody
          (r.strView.take e)).strView = r.strView.drop (e + 2)
        have hv : ((r.commitParsedBytes (e + 2)).appendBody
            (r.strView.take e)).strView =
            (r.commitParsedBytes (e + 2)).strView := rfl
        rw [hv, HttpRequest.strView_commitParsedBytes]

/-- Witness for C4 at a concrete chunk of expected length 5. -/
theorem c4_chunked_data_first_crlf_witness :
    (HttpRequestParser.parseRequestChunkedBodyData
      { freshRequest with
          buffer := strB "hello\r\nrest", state := .CHUNKED_BODY_DATA,
          expected_chunk_length := 5 }).1 =
      .CONTINUE ∧
    (HttpRequestParser.parseRequestChunkedBodyData
      { freshRequest with
          buffer := strB "hello\r\nrest", state := .CHUNKED_BODY_DATA,
          expected_chunk_length := 5 }).2.body =
      ({ freshRequest with
          buffer := strB "hello\r\nrest", state := .CHUNKED_BODY_DATA,
          expected_chunk_length := 5 } : HttpRequest).body ++
        (({ freshRequest with
            buffer := strB "hello\r\nrest", state := .CHUNKED_BODY_DATA,
            expected_chunk_length := 5 } : HttpRequest).strView.take 5) ∧
    (HttpRequestParser.parseRequestChunkedBodyData
      { freshRequest with
          buffer := strB "hello\r\nrest", state := .CHUNKED_BODY_DATA,
          expected_chunk_length := 5 }).2.body_length =
      ({ freshRequest with
          buffer := strB "hello\r\nrest", state := .CHUNKED_BODY_DATA,
          expected_chunk_length := 5 } : HttpRequest).body_length + 5 ∧
    (HttpRequestParser.parseRequestChunkedBodyData
      { freshRequest with
          buffer := strB "hello\r\nrest", state := .CHUNKED_BODY_DATA,
          expected_chunk_length := 5 }).2.state =
      .CHUNKED_BODY_SIZE ∧
    (HttpRequestParser.parseRequestChunkedBodyData
      { freshRequest with
          buffer := strB "hello\r\nrest", state := .CHUNKED_BODY_DATA,
          expected_chunk_length := 5 }).2.strView =
      ({ freshRequest with
          buffer := strB "hello\r\nrest", state := .CHUNKED_BODY_DATA,
          expected_chunk_length := 5 } : HttpRequest).strView.drop (5 + 2) :=
  ((c4_chunked_data_first_crlf
    { freshRequest with
        buffer := strB "hello\r\nrest", state := .CHUNKED_BODY_DATA,
        expected_chunk_length := 5 }).2 5
    (by decide)).2 (by decide)

/-! ## Claim C5: method gating in the router -/

/-- The location used by the C5 counterexample: a non-empty allow-list not
containing GET, together with a redirect. -/
def locC5 : LocationConfig :=
  { path := strB "/", root := strB "/www", index := [], autoindex := false,
    client_max_body_size := 1048576, redirect_url := strB "/new",
    allowed_methods := [strB "POST"], cgi_ext := [], cgi_path := [] }

/-- C5 counterexample: a location with a non-empty allow-list that does not
contain the request method, but which also carries a redirect: the router
answers 301, not the claimed 405, because the redirect gate precedes the
method gate (as do the 413 size gate and the 404 gates). -/
theorem c5_method_gate_counterexample :
    locC5.allowed_methods ≠ [] ∧
    locC5.allowed_methods.contains (strB "GET") = false ∧
    HttpUtils.getLocation (strB "/x") { locations := [locC5] } = some locC5 ∧
    (HttpMethodHandler.processMethod (fun _ => none) (fun _ => false)
        (fun _ => false) (fun _ => false) (fun _ _ _ => freshResponse)
        (fun _ _ _ => freshResponse) (fun _ _ => freshResponse)
        (fun _ => freshResponse)
        { freshRequest with
            request_target := strB "/x", method_raw := strB "GET",
            method_code := .GET }
        { locations := [locC5] }).status_code = 301 ∧
    (HttpMethodHandler.processMethod (fun _ => none) (fun _ => false)
        (fun _ => false) (fun _ => false) (fun _ _ _ => freshResponse)
        (fun _ _ _ => freshResponse) (fun _ _ => freshResponse)
        (fun _ => freshResponse)
        { freshRequest with
            request_target := strB "/x", method_raw := strB "GET",
            method_code := .GET }
        { locations := [locC5] }).status_code ≠ 405 := by
  refine ⟨by decide, by decide, by decide, by decide, by decide⟩

/-- C5 corrected: the 405 gate fires only after the earlier gates pass —
the location is found, the body size is under the limit, the location has
no redirect, and the resolved file path passes the security check; under
those conditions a method missing from a non-empty allow-list yields 405. -/
theorem c5_method_gate (canon : Bytes → Option Bytes)
    (fsE fsD fsR : Bytes → Bool)
    (cgiX : HttpRequest → LocationConfig → Bytes → HttpResponse)
    (hG : Bytes → Bytes → LocationConfig → HttpResponse)
    (hP : Bytes → HttpRequest → HttpResponse)
    (hD : Bytes → HttpResponse)
    (request : HttpRequest) (config : ServerConfig)
    (location : LocationConfig)
    (hloc : HttpUtils.getLocation request.request_target config =
      some location)
    (hsize : request.body_length < location.client_max_body_size)
    (hred : location.redirect_url = [])
    (hsec : HttpUtils.isFilePathSecure canon
      (HttpUtils.getFilePath location request.request_target)
      location.root = true)
    (hne : location.allowed_methods ≠ [])
    (hnotin : location.allowed_methods.contains request.method_raw = false) :
    (HttpMethodHandler.processMethod canon fsE fsD fsR cgiX hG hP hD
        request config).status_code = 405 ∧
    (HttpMethodHandler.processMethod canon fsE fsD fsR cgiX hG hP hD
        request config).is_error_response = true := by
  have hm : HttpUtils.isMethodAllowed location request.method_raw = false := by
    unfold HttpUtils.isMethodAllowed
    rw [if_neg (by simpa [List.isEmpty_iff] using hne)]
    exact hnotin
  unfold HttpMethodHandler.processMethod
  dsimp only
  rw [hloc]
  dsimp only
  rw [if_neg (by omega), if_neg (by simp [hred]), if_neg (by simp [hsec]),
    if_pos (by simp [hm])]
  constructor
  · simp [HttpResponse.setErrorResponse, HttpResponse.setStatusCode,
      HttpResponse.setBody]
  · rfl

/-- Witness for C5 at a concrete request, location and oracles. -/
theorem c5_method_gate_witness :
    (HttpMethodHandler.processMethod (fun _ => some []) (fun _ => false)
        (fun _ => false) (fun _ => false) (fun _ _ _ => freshResponse)
        (fun _ _ _ => freshResponse) (fun _ _ => freshResponse)
        (fun _ => freshResponse)
        { freshRequest with
            request_target := strB "/x", method_raw := strB "GET",
            method_code := .GET }
        { locations := [{ locC5 with redirect_url := [] }] }).status_code =
      405 ∧
    (HttpMethodHandler.processMethod (fun _ => some []) (fun _ => false)
        (fun _ => false) (fun _ => false) (fun _ _ _ => freshResponse)
        (fun _ _ _ => freshResponse) (fun _ _ => freshResponse)
        (fun _ => freshResponse)
        { freshRequest with
            request_target := strB "/x", method_raw := strB "GET",
            method_code := .GET }
        { locations := [{ locC5 with redirect_url := [] }] }).is_error_response =
      true :=
  c5_method_gate (fun _ => some []) (fun _ => false) (fun _ => false)
    (fun _ => false) (fun _ _ _ => freshResponse) (fun _ _ _ => freshResponse)
    (fun _ _ => freshResponse) (fun _ => freshResponse)
    { freshRequest with
        request_target := strB "/x", method_raw := strB "GET",
        method_code := .GET }
    { locations := [{ locC5 with redirect_url := [] }] }
    { locC5 with redirect_url := [] }
    (by decide) (by decide) rfl (by decide) (by decide) (by decide)

/-! ## Claim C6: location selection -/

/-- Characterization of the `getLocation` accumulator loop: the result is a
position-0 match of positive path length, longest among the matches, the
first of that length in encounter order (or the carried best). -/
theorem getLocationGo_char (uri : Bytes) :
    ∀ (locs : List LocationConfig) (best : Option LocationConfig)
      (maxlen : Nat),
    (best = none → maxlen = 0) →
    (∀ b, best = some b →
      findSub uri b.path = some 0 ∧ b.path.length = maxlen ∧ 0 < maxlen) →
    ((HttpUtils.getLocationGo uri locs best maxlen = none →
        best = none ∧
        ∀ l ∈ locs, findSub uri l.path = some 0 →
          l.path.length ≤ maxlen) ∧
      (∀ loc, HttpUtils.getLocationGo uri locs best maxlen = some loc →
        findSub uri loc.path = some 0 ∧ 0 < loc.path.length ∧
        (∀ l ∈ locs, findSub uri l.path = some 0 →
          l.path.length ≤ loc.path.length) ∧
        ((best = some loc ∧ loc.path.length = maxlen) ∨
         (∃ pre suf, locs = pre ++ loc :: suf ∧ maxlen < loc.path.length ∧
           ∀ l ∈ pre, findSub uri l.path = some 0 →
             l.path.length < loc.path.length)))) := by
  intro locs
  induction locs with
  | nil =>
      intro best maxlen hb0 hbs
      constructor
      · intro h
        exact ⟨by simpa [HttpUtils.getLocationGo] using h, by simp⟩
      · intro loc h
        simp only [HttpUtils.getLocationGo] at h
        obtain ⟨h1, h2, h3⟩ := hbs loc h
        exact ⟨h1, by omega, by simp, Or.inl ⟨h, h2⟩⟩
  | cons loc t ih =>
      intro best maxlen hb0 hbs
      by_cases hc : findSub uri loc.path = some 0 ∧ maxlen < loc.path.length
      · have hgo : HttpUtils.getLocationGo uri (loc :: t) best maxlen =
            HttpUtils.getLocationGo uri t (some loc) loc.path.length := by
          simp only [HttpUtils.getLocationGo, if_pos hc]
        obtain ⟨ihn, ihs⟩ := ih (some loc) loc.path.length (by simp)
          (by intro b hb
              injection hb with hb
              subst hb
              exact ⟨hc.1, rfl, by omega⟩)
        constructor
        · intro h
          rw [hgo] at h
          exact absurd (ihn h).1 (by simp)
        · intro loc' h
          rw [hgo] at h
          obtain ⟨h1, h2, h3, h4⟩ := ihs loc' h
          refine ⟨h1, h2, ?_, ?_⟩
          · intro l hl hml
            rcases List.mem_cons.mp hl with rfl | hlt
            · rcases h4 with ⟨hb, hlen⟩ | ⟨pre, suf, heq, hlt2, hall⟩
              · injection hb with hb
                subst hb
                omega
              · omega
            · exact h3 l hlt hml
          · rcases h4 with ⟨hb, hlen⟩ | ⟨pre, suf, heq, hlt2, hall⟩
            · injection hb with hb
              subst hb
              exact Or.inr ⟨[], t, rfl, hc.2, by simp⟩
            · refine Or.inr ⟨loc :: pre, suf, by rw [heq]; simp, by have h5 := hc.2; omega, ?_⟩
              intro l hl hml
              rcases List.mem_cons.mp hl with rfl | hlp
              · omega
              · exact hall l hlp hml
      · have hgo : HttpUtils.getLocationGo uri (loc :: t) best maxlen =
            HttpUtils.getLocationGo uri t best maxlen := by
          simp only [HttpUtils.getLocationGo, if_neg hc]
        obtain ⟨ihn, ihs⟩ := ih best maxlen hb0 hbs
        constructor
        · intro h
          rw [hgo] at h
          obtain ⟨hbn, hall⟩ := ihn h
          refine ⟨hbn, ?_⟩
          intro l hl hml
          rcases List.mem_cons.mp hl with rfl | hlt
          · by_contra hgt
            exact hc ⟨hml, by omega⟩
          · exact hall l hlt hml
        · intro loc' h
          rw [hgo] at h
          obtain ⟨h1, h2, h3, h4⟩ := ihs loc' h
          refine ⟨h1, h2, ?_, ?_⟩
          · intro l hl hml
            rcases List.mem_cons.mp hl with rfl | hlt
            · have hml2 : l.path.length ≤ maxlen := by
                by_contra hgt
                exact hc ⟨hml, by omega⟩
              rcases h4 with ⟨hb, hlen⟩ | ⟨pre, suf, heq, hlt2, hall⟩ <;> omega
            · exact h3 l hlt hml
          · rcases h4 with ⟨hb, hlen⟩ | ⟨pre, suf, heq, hlt2, hall⟩
            · exact Or.inl ⟨hb, hlen⟩
            · refine Or.inr ⟨loc :: pre, suf, by rw [heq]; simp, hlt2, ?_⟩
              intro l hl hml
              rcases List.mem_cons.mp hl with rfl | hlp
              · have : l.path.length ≤ maxlen := by
                  by_contra hgt
                  exact hc ⟨hml, by omega⟩
                omega
              · exact hall l hlp hml

/-- C6 corrected: `getLocation` returns a location whose path occurs at
position 0 of the target and is nonempty, longest among such, the first
encountered on equal lengths; when it returns no match every
position-0-matching path is empty; and a location with path "/" guarantees
a match only for targets that BEGIN with '/' — a parser-accepted
absolute-form target such as "http://x/" matches no location and does
reach the no-match 404 (see the counterexample). -/
theorem c6_get_location_longest_first (uri : Bytes) (config : ServerConfig) :
    (∀ loc, HttpUtils.getLocation uri config = some loc →
      findSub uri loc.path = some 0 ∧ 0 < loc.path.length ∧
      (∀ l ∈ config.locations, findSub uri l.path = some 0 →
        l.path.length ≤ loc.path.length) ∧
      ∃ pre suf, config.locations = pre ++ loc :: suf ∧
        ∀ l ∈ pre, findSub uri l.path = some 0 →
          l.path.length < loc.path.length) ∧
    (HttpUtils.getLocation uri config = none →
      ∀ l ∈ config.locations, findSub uri l.path = some 0 →
        l.path.length = 0) ∧
    ((∃ l ∈ config.locations, l.path = strB "/") →
      (strB "/").isPrefixOf uri = true →
      ∃ loc, HttpUtils.getLocation uri config = some loc) := by
  obtain ⟨hn, hs⟩ := getLocationGo_char uri config.locations none 0
    (fun _ => rfl) (by simp)
  refine ⟨?_, ?_, ?_⟩
  · intro loc h
    obtain ⟨h1, h2, h3, h4⟩ := hs loc h
    refine ⟨h1, h2, h3, ?_⟩
    rcases h4 with ⟨hb, -⟩ | ⟨pre, suf, heq, -, hall⟩
    · simp at hb
    · exact ⟨pre, suf, heq, hall⟩
  · intro h l hl hm
    obtain ⟨-, hall⟩ := hn h
    have := hall l hl hm
    omega
  · intro hex hpre
    obtain ⟨l, hl, hp⟩ := hex
    rcases hgo : HttpUtils.getLocation uri config with _ | loc
    · exfalso
      obtain ⟨-, hall⟩ := hn hgo
      have hm : findSub uri l.path = some 0 := by
        rw [hp]
        exact findSub_zero_iff.mpr hpre
      have hle := hall l hl hm
      rw [hp] at hle
      exact absurd hle (by decide)
    · exact ⟨loc, rfl⟩

/-- The location with path "/" used by the C6 counterexample and witness. -/
def locC6 : LocationConfig :=
  { path := strB "/", root := strB "/www", index := [], autoindex := false,
    client_max_body_size := 1048576, redirect_url := [],
    allowed_methods := [], cgi_ext := [], cgi_path := [] }

/-- C6 counterexample: the parser accepts the absolute-form target
"http://x/", yet a server block holding a location with path "/" matches
nothing for it — `request_uri.find(loc.path)` is 5, not 0 — and the router
answers with the no-match 404 the claim says can never happen. -/
theorem c6_get_location_counterexample :
    (HttpRequestParser.validateRequestTarget (strB "http://x/")
      freshRequest).1 = true ∧
    locC6.path = strB "/" ∧
    HttpUtils.getLocation (strB "http://x/") { locations := [locC6] } =
      none ∧
    (HttpMethodHandler.processMethod (fun _ => none) (fun _ => false)
        (fun _ => false) (fun _ => false) (fun _ _ _ => freshResponse)
        (fun _ _ _ => freshResponse) (fun _ _ => freshResponse)
        (fun _ => freshResponse)
        { freshRequest with
            request_target := strB "http://x/", method_raw := strB "GET",
            method_code := .GET }
        { locations := [locC6] }).status_code = 404 := by
  refine ⟨by decide, rfl, by decide, by decide⟩

/-- Witness for C6 at a concrete slash-target and config. -/
theorem c6_get_location_longest_first_witness :
    ∃ loc, HttpUtils.getLocation (strB "/a") { locations := [locC6] } =
      some loc :=
  (c6_get_location_longest_first (strB "/a")
    { locations := [locC6] }).2.2 ⟨locC6, by simp, rfl⟩ (by decide)

/-! ## Claim C8: empty multipart filename -/

/-- A save oracle that always succeeds (it is never reached on the C8
input). -/
def saveC8 : Bytes → Bytes → Bytes → Bool × Bytes := fun _ _ _ => (true, [])

/-- C8: a part whose Content-Disposition carries an empty filename= is NOT
skipped: the allow-list check runs before the empty-filename skip, the
extension of "" is not in the allow-list, so the upload handler returns a
403 error response for the whole request instead of continuing with the
next part. (The `filename.empty()` continue-branch is unreachable.) -/
theorem c8_empty_filename_not_skipped :
    (HttpMethodHandler.handleMultipartFileUpload saveC8
      { freshRequest with
          body := strB
            "--ZZ\r\nContent-Disposition: form-data; name=\"f\"; filename=\"\"\r\n\r\ndata\r\n--ZZ--\r\n" }
      (strB "/upload")
      (strB "multipart/form-data; boundary=ZZ")).status_code = 403 ∧
    (HttpMethodHandler.handleMultipartFileUpload saveC8
      { freshRequest with
          body := strB
            "--ZZ\r\nContent-Disposition: form-data; name=\"f\"; filename=\"\"\r\n\r\ndata\r\n--ZZ--\r\n" }
      (strB "/upload")
      (strB "multipart/form-data; boundary=ZZ")).is_error_response =
      true := by
  unfold HttpMethodHandler.handleMultipartFileUpload
  dsimp only
  rw [HttpMethodHandler.multipartLoop.eq_def]
  exact ⟨by decide, by decide⟩

end Webserv
